import Mathlib

/-!
Verification development for the register definition engine of the
`ha-deye-modbus` repository (custom_components/deye_modbus).

The Lean definitions below are a shallow embedding of the Python source:

* `custom_components/deye_modbus/__init__.py`
  (`_build_spans`, `_decode_item` and its nested helpers,
  `_async_update_definitions`),
* `custom_components/deye_modbus/definition_loader.py` (`load_definition`),
* `custom_components/deye_modbus/number.py` (`_to_raw`,
  `async_set_native_value`),
* `custom_components/deye_modbus/select.py` (`async_select_option`).

Machine integers are modelled as `Nat`/`Int` (register words read from the
transport are in `0 .. 65535`), Python numbers as `Int` or `Rat` according
to the `int`/`float` distinction, and fallible steps as `Option`/`Except`.
-/

namespace Deye

/-! ### Date and time values

`datetime.datetime` and `datetime.time` values are modelled structurally.
Time zones are not modelled: the only time-zone operation in the source is
`val.replace(tzinfo=dt_util.DEFAULT_TIME_ZONE)`, which changes no
year/month/day/hour/minute/second component.
-/

structure DateTime where
  year : Nat
  month : Nat
  day : Nat
  hour : Nat
  minute : Nat
  second : Nat
deriving DecidableEq, Repr

structure TimeOfDay where
  hour : Nat
  minute : Nat
  second : Nat
deriving DecidableEq, Repr

def isLeap (y : Nat) : Bool :=
  (y % 4 == 0 && y % 100 != 0) || y % 400 == 0

def daysInMonth (y m : Nat) : Nat :=
  if m = 2 then (if isLeap y then 29 else 28)
  else if m = 4 ∨ m = 6 ∨ m = 9 ∨ m = 11 then 30
  else 31

/-- Models the Python `datetime.datetime(y, m, d, h, mi, s)` constructor:
`some` on a valid Gregorian date within the supported year range, `none`
when the constructor would raise `ValueError`. -/
def mkDatetime (y m d h mi s : Nat) : Option DateTime :=
  if 1 ≤ y ∧ y ≤ 9999 ∧ 1 ≤ m ∧ m ≤ 12 ∧ 1 ≤ d ∧ d ≤ daysInMonth y m
     ∧ h ≤ 23 ∧ mi ≤ 59 ∧ s ≤ 59
  then some ⟨y, m, d, h, mi, s⟩ else none

/-- Models the Python `datetime.time(h, mi, s)` constructor. -/
def mkTime (h mi s : Nat) : Option TimeOfDay :=
  if h ≤ 23 ∧ mi ≤ 59 ∧ s ≤ 59 then some ⟨h, mi, s⟩ else none

/-! ### BCD-tolerant date/time component decoding

Embedding of the helpers nested inside `_decode_item`
(`custom_components/deye_modbus/__init__.py`).
-/

/-- `_bcd_byte_to_int`: convert a single BCD-encoded byte (0x00-0x99) to int. -/
def bcdByteToInt (raw : Nat) : Option Nat :=
  let tens := (raw >>> 4) &&& 0x0F
  let ones := raw &&& 0x0F
  if tens ≥ 10 ∨ ones ≥ 10 then none
  else some (tens * 10 + ones)

/-- The inner `_try_year` of `_decode_year`. -/
def tryYear (v : Nat) : Option Nat :=
  if 1970 ≤ v ∧ v ≤ 2100 then some v
  else if v < 100 then
    (if 2000 + v ≤ 2100 then some (2000 + v) else none)
  else
    match bcdByteToInt ((v >>> 8) &&& 0xFF), bcdByteToInt (v &&& 0xFF) with
    | some high, some low =>
        let candidate := high * 100 + low
        if 1970 ≤ candidate ∧ candidate ≤ 2100 then some candidate else none
    | _, _ => none

/-- `_decode_year`: try direct, then swapped-byte BCD. -/
def decodeYear (raw : Nat) : Option Nat :=
  match tryYear raw with
  | some y => some y
  | none => tryYear (((raw &&& 0xFF) <<< 8) ||| ((raw >>> 8) &&& 0xFF))

/-- `_decode_component`: decode a date/time component, handling both binary
and BCD values. -/
def decodeComponent (raw upper : Nat) (allowZero : Bool) : Option Nat :=
  if (allowZero ∧ raw ≤ upper) ∨ (¬allowZero ∧ 1 ≤ raw ∧ raw ≤ upper) then some raw
  else
    match bcdByteToInt raw with
    | none => none
    | some d =>
        if allowZero then (if d ≤ upper then some d else none)
        else (if 1 ≤ d ∧ d ≤ upper then some d else none)

/-- `_decode_month_day`: try both byte orders for month/day. -/
def decodeMonthDay (raw : Nat) : Option (Nat × Nat) :=
  [((raw >>> 8) &&& 0xFF, raw &&& 0xFF), (raw &&& 0xFF, (raw >>> 8) &&& 0xFF)].findSome?
    fun c =>
      match decodeComponent c.1 12 false, decodeComponent c.2 31 false with
      | some mo, some d => some (mo, d)
      | _, _ => none

/-- `_decode_hour_min`: try both byte orders for hour/minute. -/
def decodeHourMin (raw : Nat) : Option (Nat × Nat) :=
  [((raw >>> 8) &&& 0xFF, raw &&& 0xFF), (raw &&& 0xFF, (raw >>> 8) &&& 0xFF)].findSome?
    fun c =>
      match decodeComponent c.1 23 true, decodeComponent c.2 59 true with
      | some h, some mi => some (h, mi)
      | _, _ => none

/-- `_decode_two_digit_year`: map a 0-99 byte to a year, else fall back to
`_decode_year`. -/
def decodeTwoDigitYear (raw : Nat) : Option Nat :=
  if raw ≤ 99 then
    if 1970 ≤ 2000 + raw ∧ 2000 + raw ≤ 2100 then some (2000 + raw)
    else decodeYear raw
  else decodeYear raw

/-- Stage (a) of `_decode_datetime_from_regs`: the fixed Solarman layout
reg0 = YY/MM, reg1 = DD/HH, reg2 = MM/SS. -/
def solarmanLayout (r0 r1 r2 : Nat) : Option DateTime :=
  match decodeTwoDigitYear ((r0 >>> 8) &&& 0xFF),
        decodeComponent (r0 &&& 0xFF) 12 false,
        decodeComponent ((r1 >>> 8) &&& 0xFF) 31 false,
        decodeComponent (r1 &&& 0xFF) 23 true,
        decodeComponent ((r2 >>> 8) &&& 0xFF) 59 true,
        decodeComponent (r2 &&& 0xFF) 59 true with
  | some y, some mo, some d, some h, some mi, some s => mkDatetime y mo d h mi s
  | _, _, _, _, _, _ => none

/-- The register-permutation order list of `_decode_datetime_from_regs`. -/
def idxOrders : List (Nat × Nat × Nat) :=
  [(0, 1, 2), (1, 0, 2), (2, 0, 1), (0, 2, 1), (1, 2, 0), (2, 1, 0)]

/-- Stage (b) of `_decode_datetime_from_regs` as it actually executes. In
the source the loop body reads

```text
if None in (year, month, day, hour, minute):
    continue
    try:
        return dt.datetime(...)
    except Exception:
        continue
```

so the `return` statement is indented beneath the `continue` and is
unreachable: on an invalid permutation the loop continues, and on a valid
permutation the body simply ends, so no iteration ever returns a value.
The stage therefore yields `none` for every input and control always falls
through to stage (c). -/
def permutationStage (_regsIn : List Nat) : Option DateTime :=
  none

/-- Stage (b) as the spec describes it (and as the indentation of the dead
`return` statement suggests was intended): for each register permutation,
decode year / month-day / hour-minute, and return the first fully valid
combination that yields a constructible date. -/
def permutationStageIntended (regsIn : List Nat) : Option DateTime :=
  idxOrders.findSome? fun o =>
    match decodeYear (regsIn.getD o.1 0),
          decodeMonthDay (regsIn.getD o.2.1 0),
          decodeHourMin (regsIn.getD o.2.2 0) with
    | some y, some md, some hm => mkDatetime y md.1 md.2 hm.1 hm.2 0
    | _, _, _ => none

/-- Stage (c) of `_decode_datetime_from_regs`: flatten all registers into a
byte stream and interpret bytes 0-5 as YH, YL, M, D, H, M. -/
def byteFallbackStage (regsIn : List Nat) : Option DateTime :=
  let bytesLinear := regsIn.flatMap fun reg => [(reg >>> 8) &&& 0xFF, reg &&& 0xFF]
  match bytesLinear with
  | b0 :: b1 :: b2 :: b3 :: b4 :: b5 :: _ =>
      match decodeYear ((b0 <<< 8) ||| b1),
            decodeComponent b2 12 false,
            decodeComponent b3 31 false,
            decodeComponent b4 23 true,
            decodeComponent b5 59 true with
      | some y, some mo, some d, some h, some mi => mkDatetime y mo d h mi 0
      | _, _, _, _, _ => none
  | _ => none

/-- `_decode_datetime_from_regs`: try the fixed layout, then the
(no-op, see `permutationStage`) permutation loop, then the flat byte
fallback; `none` when fewer than three registers are supplied or no stage
validates. -/
def decodeDatetimeFromRegs (regsIn : List Nat) : Option DateTime :=
  match regsIn with
  | r0 :: r1 :: r2 :: _ =>
      match solarmanLayout r0 r1 r2 with
      | some v => some v
      | none =>
          match permutationStage regsIn with
          | some v => some v
          | none => byteFallbackStage regsIn
  | _ => none

/-- `_decode_datetime_from_regs` as the spec describes it: identical to
`decodeDatetimeFromRegs` except that stage (b) actually returns the first
fully valid permutation. -/
def decodeDatetimeFromRegsIntended (regsIn : List Nat) : Option DateTime :=
  match regsIn with
  | r0 :: r1 :: r2 :: _ =>
      match solarmanLayout r0 r1 r2 with
      | some v => some v
      | none =>
          match permutationStageIntended regsIn with
          | some v => some v
          | none => byteFallbackStage regsIn
  | _ => none

/-! ### Python value model

Python numbers keep the `int` / `float` distinction (a `float` is modelled
as an exact rational, which is faithful for every arithmetic step the
source performs on the values the claims are about). `Value` covers every
runtime type a decoded value can take in `_decode_item`, including the
list values produced by multiplying an `int` by a list-valued scale. -/

inductive PyNum where
  | pint (n : Int)
  | pfloat (q : Rat)
deriving DecidableEq, Repr

def PyNum.toRat : PyNum → Rat
  | .pint n => (n : Rat)
  | .pfloat q => q

/-- Python truthiness of a number. -/
def PyNum.truthy : PyNum → Bool
  | .pint n => n != 0
  | .pfloat q => q != 0

inductive Value where
  | vint (n : Int)
  | vfloat (q : Rat)
  | vstr (s : String)
  | vdt (d : DateTime)
  | vtime (t : TimeOfDay)
  | vlist (l : List PyNum)
deriving DecidableEq, Repr

/-- Python truthiness of a `Value` (`datetime` and `time` objects are
always truthy on Python ≥ 3.5). -/
def Value.truthy : Value → Bool
  | .vint n => n != 0
  | .vfloat q => q != 0
  | .vstr s => s ≠ ""
  | .vdt _ => true
  | .vtime _ => true
  | .vlist l => !l.isEmpty

/-- A definition-supplied scale: a single number or a two-element ratio
list (any YAML list is possible; the code inspects at most the first two
elements). -/
inductive ScaleSpec where
  | snum (n : PyNum)
  | slist (l : List PyNum)
deriving DecidableEq, Repr

/-- Python truthiness of the scale object. -/
def ScaleSpec.truthy : ScaleSpec → Bool
  | .snum n => n.truthy
  | .slist l => !l.isEmpty

/-- `DefinitionItem` from `definition_loader.py`. Register addresses and
masks are stored after the `int(x, 0)` normalisation the loader performs;
`unit` holds the `uom` field. -/
structure DefinitionItem where
  key : String
  name : String
  platform : String
  registers : List Nat
  scale : Option ScaleSpec
  lookup : Option (List (Int × Value))
  group : String
  icon : Option String
  unit : Option String
  rule : Option Int
  range_min : Option Rat := none
  range_max : Option Rat := none
  mask : Option Int := none
  divide : Option PyNum := none
  group_name : Option String := none
  offset : Option PyNum := none
deriving DecidableEq, Repr

/-! ### Python arithmetic on values

Each helper returns `none` exactly when the corresponding Python operation
raises `TypeError`; the pipeline steps below recover from that with their
`except Exception: pass` handlers. -/

/-- String repetition `s * n` (empty for non-positive `n`). -/
def strRepeat (s : String) (n : Int) : String :=
  String.join (List.replicate n.toNat s)

/-- List repetition `l * n` (empty for non-positive `n`). -/
def listRepeat (l : List PyNum) (n : Int) : List PyNum :=
  (List.replicate n.toNat l).flatten

/-- Python `v - o` for a value and a number. -/
def subNum (v : Value) (o : PyNum) : Option Value :=
  match v, o with
  | .vint a, .pint b => some (.vint (a - b))
  | .vint a, .pfloat b => some (.vfloat ((a : Rat) - b))
  | .vfloat a, .pint b => some (.vfloat (a - (b : Rat)))
  | .vfloat a, .pfloat b => some (.vfloat (a - b))
  | _, _ => none

/-- Python `v * n` for a value and a number (note that a string times an
`int` is string repetition, not an error). -/
def mulNum (v : Value) (o : PyNum) : Option Value :=
  match v, o with
  | .vint a, .pint b => some (.vint (a * b))
  | .vint a, .pfloat b => some (.vfloat ((a : Rat) * b))
  | .vfloat a, .pint b => some (.vfloat (a * (b : Rat)))
  | .vfloat a, .pfloat b => some (.vfloat (a * b))
  | .vstr s, .pint b => some (.vstr (strRepeat s b))
  | .vstr _, .pfloat _ => none
  | .vlist l, .pint b => some (.vlist (listRepeat l b))
  | .vlist _, .pfloat _ => none
  | _, _ => none

/-- Python `v * scale` where the scale may also be a list (an `int` times
a list is list repetition). -/
def mulScale (v : Value) : ScaleSpec → Option Value
  | .snum n => mulNum v n
  | .slist l =>
      match v with
      | .vint a => some (.vlist (listRepeat l a))
      | _ => none

/-- Python `v / d` for a value and a number (true division always yields a
float); only called with a truthy, hence non-zero, divisor. -/
def divNum (v : Value) (o : PyNum) : Option Value :=
  match v with
  | .vint a => some (.vfloat ((a : Rat) / o.toRat))
  | .vfloat a => some (.vfloat (a / o.toRat))
  | _ => none

/-- Python `v & m` for a value and an `int` mask (arbitrary-precision
two-complement bitwise AND on integers, `TypeError` otherwise). -/
def andMask (v : Value) (m : Int) : Option Value :=
  match v with
  | .vint a => some (.vint (Int.land a m))
  | _ => none

/-! ### Dictionary model

Python dicts are modelled as association lists in insertion order; an
insert overwrites the value of an existing key in place and appends a new
key at the end, and lookup returns the unique value of a key. Lookup
tables parsed from the definitions are stored as the raw write sequence
(`dictGetWrites` returns the value of the last write of a key, which is
exactly dict last-write-wins behaviour). -/

def dictGetWrites (l : List (Int × Value)) (k : Int) : Option Value :=
  (l.reverse.find? (fun p => p.1 = k)).map (·.2)

/-- `lookup.get(k, default)` on a write-sequence table. -/
def dictGetWritesD (l : List (Int × Value)) (k : Int) (dflt : Value) : Value :=
  (dictGetWrites l k).getD dflt

/-! ### `_decode_item` -/

/-- `_SCALE_OVERRIDES` from `__init__.py` (values are Python `int`
literals). -/
def scaleOverrides : List (String × PyNum) :=
  [("battery_bms_charge_current_limit", .pint 100),
   ("battery_bms_discharge_current_limit", .pint 100),
   ("load_power", .pint 10),
   ("load_l1_power", .pint 10),
   ("load_l2_power", .pint 10),
   ("grid_power", .pint 10),
   ("grid_l1_power", .pint 10),
   ("grid_l2_power", .pint 10),
   ("battery_current", .pint 1),
   ("grid_l1_current", .pint 1),
   ("grid_l2_current", .pint 1),
   ("external_ct1_current", .pint 1),
   ("external_ct2_current", .pint 1),
   ("load_l1_current", .pint 1),
   ("load_l2_current", .pint 1),
   ("output_l1_current", .pint 1),
   ("output_l2_current", .pint 1),
   ("battery_bms_current", .pint 1)]

/-- Python `str.strip()` with no argument: remove leading and trailing
whitespace (modelled for the ASCII whitespace characters that occur in
register data and definition names). -/
def pyStrip (s : String) : String :=
  String.mk (((s.data.dropWhile Char.isWhitespace).reverse.dropWhile
    Char.isWhitespace).reverse)

/-- `bytes(...).decode(errors="ignore")` restricted to the ASCII plane:
bytes below 0x80 become the corresponding character, larger bytes are
dropped. (This is exact for ASCII byte streams; multi-byte UTF-8
sequences, which do not occur in register string data, are not modelled.) -/
def pyBytesDecodeIgnore (bs : List Nat) : String :=
  String.mk ((bs.filter (· < 0x80)).map Char.ofNat)

/-- The rule-dispatch phase of `_decode_item` (everything before the
offset/mask/divide/scale/lookup pipeline). -/
def decodeRulePhase (item : DefinitionItem) (regs : List Nat) : Option Value :=
  match regs with
  | [] => none
  | r0 :: _ =>
      if item.rule = none ∨ item.rule = some 1 then
        some (.vint (r0 : Int))
      else if item.rule = some 2 then
        -- signed 16-bit with optional scale list
        let raw : Int := if r0 &&& 0x8000 ≠ 0 then (r0 : Int) - 0x10000 else (r0 : Int)
        match item.scale with
        | some (.slist (s0 :: srest)) =>
            let sc : PyNum :=
              match srest with
              | s1 :: _ => if s1.truthy then .pfloat (s0.toRat / s1.toRat) else s0
              | [] => s0
            mulNum (.vint raw) sc
        | some (.slist []) =>
            -- `isinstance(scale, list) and scale` is false for [], so the
            -- `elif item.scale is not None` branch keeps the empty list and
            -- `raw * []` yields the empty list
            some (.vlist [])
        | some (.snum n) => mulNum (.vint raw) n
        | none => some (.vint raw)
      else if (item.rule = some 4) ∧ regs.length ≥ 2 then
        some (.vint (((r0 <<< 16) ||| regs.getD 1 0 : Nat) : Int))
      else if item.rule = some 5 ∨ item.rule = some 7 then
        -- two ASCII bytes per register, high then low, drop null bytes
        let bytesOut := regs.flatMap fun reg => [(reg >>> 8) &&& 0xFF, reg &&& 0xFF]
        some (.vstr (pyStrip (pyBytesDecodeIgnore (bytesOut.filter (· ≠ 0)))))
      else if item.rule = some 8 then
        if item.platform = "datetime" ∧ regs.length ≥ 3 then
          (decodeDatetimeFromRegs (regs.take 3)).map .vdt
        else if item.platform = "time" ∧ regs.length ≥ 1 then
          let hour0 := decodeComponent ((r0 >>> 8) &&& 0xFF) 23 true
          let minute0 := decodeComponent (r0 &&& 0xFF) 59 true
          let second :=
            match regs with
            | _ :: r1 :: _ => decodeComponent (r1 &&& 0xFF) 59 true
            | _ => some 0
          -- some firmwares may invert hour/minute bytes
          let hm : Option Nat × Option Nat :=
            if hour0 = none ∨ minute0 = none then
              match decodeComponent (r0 &&& 0xFF) 23 true,
                    decodeComponent ((r0 >>> 8) &&& 0xFF) 59 true with
              | some hs, some ms => (some hs, some ms)
              | _, _ => (hour0, minute0)
            else (hour0, minute0)
          match hm.1, hm.2, second with
          | some h, some mi, some s => (mkTime h mi s).map .vtime
          | _, _, _ => none
        else none
      else if item.rule = some 9 then
        -- HHMM encoded in a single register
        (mkTime (r0 / 100) (r0 % 100) 0).map .vtime
      else
        none

/-- The `offset` step: `val = val - item.offset` guarded by truthiness of
the offset, with `except Exception: pass`. -/
def applyOffset (off : Option PyNum) (v : Value) : Value :=
  match off with
  | none => v
  | some o => if o.truthy then (subNum v o).getD v else v

/-- The `mask` step: applied whenever the mask `is not None` (a zero mask
is applied), with `except Exception: pass`. -/
def applyMask (mask : Option Int) (v : Value) : Value :=
  match mask with
  | none => v
  | some m => (andMask v m).getD v

/-- The `divide` step: guarded by truthiness (a zero or absent divisor
skips the step entirely), with `except Exception: pass`. -/
def applyDivide (d : Option PyNum) (v : Value) : Value :=
  match d with
  | none => v
  | some dv => if dv.truthy then (divNum v dv).getD v else v

/-- The `scale` step: `_SCALE_OVERRIDES.get(key, item.scale)` then
`val * scale` guarded by truthiness, with `except Exception: pass`. -/
def applyScale (item : DefinitionItem) (v : Value) : Value :=
  let sc : Option ScaleSpec :=
    match scaleOverrides.find? (fun p => p.1 = item.key) with
    | some p => some (.snum p.2)
    | none => item.scale
  match sc with
  | none => v
  | some s => if s.truthy then (mulScale v s).getD v else v

/-- The `lookup` step of `_decode_item`, with the `time_of_use` and
`meter` special cases. -/
def applyLookup (item : DefinitionItem) (v : Value) : Value :=
  match item.lookup, v with
  | some l, .vint n =>
      if l ≠ [] then
        if item.key = "time_of_use" then
          -- bit0 commonly acts as enable; drop it for lookup, keep raw on miss
          let base := Int.land n (Int.lnot 1)
          let decoded :=
            match dictGetWrites l n with
            | some d => if d.truthy then some d else dictGetWrites l base
            | none => dictGetWrites l base
          match decoded with
          | none => v
          | some d => d
        else if item.key = "meter" then
          let masked :=
            match item.mask with
            | some m => if m ≠ 0 then Int.land n m else n
            | none => n
          let mapped :=
            match dictGetWrites l masked with
            | some d => some d
            | none => dictGetWrites l n
          match mapped with
          | none => v
          | some d => d
        else dictGetWritesD l n v
      else v
  | _, _ => v

/-- Final normalisation of `_decode_item`: a datetime with a year outside
[1970, 2100] is discarded (time-zone attachment is modelled as the
identity, see `DateTime`). -/
def normalizeVal (v : Value) : Option Value :=
  match v with
  | .vdt d => if d.year < 1970 ∨ d.year > 2100 then none else some (.vdt d)
  | _ => some v

/-- `_decode_item`: rule dispatch followed by the fixed-order post-decode
pipeline. -/
def decodeItem (item : DefinitionItem) (regs : List Nat) : Option Value :=
  match decodeRulePhase item regs with
  | none => none
  | some v0 =>
      normalizeVal
        (applyLookup item
          (applyScale item
            (applyDivide item.divide
              (applyMask item.mask
                (applyOffset item.offset v0)))))

/-! ### `_build_spans` -/

/-- `min(item.registers)` (the source only calls this on the non-empty
register lists of loaded items; the value on `[]` is irrelevant). -/
def minList : List Nat → Nat
  | [] => 0
  | x :: xs => xs.foldl min x

/-- `max(item.registers)`. -/
def maxList : List Nat → Nat
  | [] => 0
  | x :: xs => xs.foldl max x

/-- The half-open register range `[min(registers), max(registers) + 1)` of
one item. -/
def itemRange (item : DefinitionItem) : Nat × Nat :=
  (minList item.registers, maxList item.registers + 1)

/-- The merge loop of `_build_spans`: fold the sorted ranges, merging a
range into the current group exactly when its start is ≤ the current
merged end, and emitting `(start, count)` for each finished group. -/
def mergeLoop (curStart curEnd : Nat) : List (Nat × Nat) → List (Nat × Nat)
  | [] => [(curStart, curEnd - curStart)]
  | r :: rest =>
      if r.1 ≤ curEnd then mergeLoop curStart (max curEnd r.2) rest
      else (curStart, curEnd - curStart) :: mergeLoop r.1 r.2 rest

/-- The comparison used by `ranges.sort(key=lambda r: r[0])`. -/
def rangeLE (a b : Nat × Nat) : Prop := a.1 ≤ b.1

instance : DecidableRel rangeLE := fun a b => inferInstanceAs (Decidable (a.1 ≤ b.1))

instance : IsTotal (Nat × Nat) rangeLE := ⟨fun a b => Nat.le_total a.1 b.1⟩

instance : IsTrans (Nat × Nat) rangeLE := ⟨fun _ _ _ => Nat.le_trans⟩

/-- `_build_spans`. Python `list.sort` with a key is a stable sort by that
key; `List.insertionSort` is a stable sort, so the two agree as functions. -/
def buildSpans (items : List DefinitionItem) : List (Nat × Nat) :=
  let ranges := (items.map itemRange).insertionSort rangeLE
  match ranges with
  | [] => []
  | r :: rest => mergeLoop r.1 r.2 rest

/-! ### `load_definition` (definition_loader.py)

The YAML document is modelled post-parse: a list of groups, each holding a
list of raw item mappings. Scalar normalisation that the loader performs
eagerly (`int(reg, 0)` on register strings, `int(mask, 0)` on a mask
string, `int(k)` on lookup keys) is modelled as already applied, so the
corresponding fields hold integers. The `attribute` key only matters
through `item.get("attribute") is not None`, so it is kept as an optional
opaque value. -/

structure RawLookupEntry where
  key : Option (Int ⊕ List (Option Int))
  value : Value
deriving DecidableEq, Repr

structure RawItem where
  attributeEntry : Option Value := none
  platform : Option String := none
  rule : Option Int := none
  registers : List Nat := []
  name : Option String := none
  id : Option String := none
  scale : Option ScaleSpec := none
  lookup : Option (List RawLookupEntry) := none
  range : Option (Option Rat × Option Rat) := none
  mask : Option Int := none
  displayMask : Option Int := none
  divide : Option PyNum := none
  offset : Option PyNum := none
  icon : Option String := none
  uom : Option String := none
deriving Repr

structure RawGroup where
  group : Option String := none
  items : List RawItem := []
deriving Repr

/-- `_slug`: lowercase and replace separators. -/
def slug (name : String) : String :=
  ((((name.toLower).replace " " "_").replace "-" "_").replace "/" "_").replace "&" "and"

/-- `_parse_lookup`: flatten lookup entries into the dict write sequence
(`None` keys skipped, list keys fanned out, last write wins on lookup). -/
def parseLookup (l : Option (List RawLookupEntry)) : Option (List (Int × Value)) :=
  match l with
  | none => none
  | some entries =>
      if entries.isEmpty then none
      else some (entries.foldl (fun acc e =>
        match e.key with
        | none => acc
        | some (.inl k) => acc ++ [(k, e.value)]
        | some (.inr ks) => acc ++ ks.filterMap (fun k? => k?.map (fun k => (k, e.value)))) [])

/-- The `meter` entry of `_ITEM_OVERRIDES`. -/
def meterOverrideLookup : List RawLookupEntry :=
  [⟨some (.inl 0), .vstr "Disabled"⟩,
   ⟨some (.inl 1), .vstr "Enabled"⟩,
   ⟨some (.inl 2), .vstr "Generator"⟩]

def supportedPlatforms : List String :=
  ["sensor", "number", "switch", "select", "binary_sensor", "datetime", "time"]

/-- `(item.get("name") or item.get("id") or "").strip()`. -/
def effectiveName (item : RawItem) : String :=
  pyStrip
    (match item.name with
     | some s => if s ≠ "" then s else (item.id.getD "")
     | none => item.id.getD "")

/-- The rule filter of `load_definition`: `rule in (None, 1, 2, 8, 9)`. -/
def loaderRuleSupported (rule : Option Int) : Prop :=
  rule = none ∨ rule = some 1 ∨ rule = some 2 ∨ rule = some 8 ∨ rule = some 9

instance (rule : Option Int) : Decidable (loaderRuleSupported rule) := by
  unfold loaderRuleSupported
  infer_instance

/-- The per-item body of the `load_definition` loop: `none` when the item
is skipped. -/
def loadItem (groupName : String) (item : RawItem) : Option DefinitionItem :=
  if item.attributeEntry.isSome then none
  else
    let platform := item.platform.getD "sensor"
    let rule := item.rule
    if ¬loaderRuleSupported rule then
      none
    else if platform ∉ supportedPlatforms then none
    else if item.registers = [] then none
    else
      let name := effectiveName item
      if name = "" then none
      else
        let key := slug name
        let platform := if key = "meter" then "select" else platform
        let rawLookup := if key = "meter" then some meterOverrideLookup else item.lookup
        let rangeMin := match item.range with | some r => r.1 | none => none
        let rangeMax := match item.range with | some r => r.2 | none => none
        let mask0 := item.mask
        let mask :=
          if (mask0 = none ∨ mask0 = some 0) ∧ item.displayMask ≠ none then item.displayMask
          else mask0
        some
          { key := key
            name := name
            platform := platform
            registers := item.registers
            scale := item.scale
            lookup := parseLookup rawLookup
            group := groupName
            icon := item.icon
            unit := item.uom
            rule := rule
            range_min := rangeMin
            range_max := rangeMax
            mask := mask
            divide := item.divide
            group_name := some groupName
            offset := item.offset }

/-- `load_definition` on the parsed `parameters` list. -/
def loadDefinition (groups : List RawGroup) : List DefinitionItem :=
  groups.flatMap fun g => g.items.filterMap (loadItem (g.group.getD "Unknown"))

/-! ### `_async_update_definitions` (the poll cycle)

The cycle is modelled as a pure function of the previous snapshot, the
outcome of each span read (`none` models a failed read: an exception or an
error response, both of which the source logs and skips), and the
monotonic timestamps involved in the `read_ts <= last_ts` guard.
Snapshots and the register cache are Python dicts, modelled as insertion
ordered association lists. -/

/-- `Snapshot` is the key → value mapping exposed by the coordinator. -/
abbrev Snapshot := List (String × Value)

/-- Insert into an insertion-ordered string-keyed dict: overwrite in place
if the key exists, append otherwise. -/
def dictInsertS (m : Snapshot) (k : String) (v : Value) : Snapshot :=
  if m.any (fun p => p.1 = k) then m.map (fun p => if p.1 = k then (k, v) else p)
  else m ++ [(k, v)]

def dictGetS (m : Snapshot) (k : String) : Option Value :=
  (m.find? (fun p => p.1 = k)).map (·.2)

/-- `merged.update(data)`: fold the updates of `data` into `m`. -/
def dictUpdateS (m data : Snapshot) : Snapshot :=
  data.foldl (fun acc p => dictInsertS acc p.1 p.2) m

/-- Python `==` on the dicts represented by two association lists (order
independent: same keys with equal values). -/
def pyDictEq (m1 m2 : Snapshot) : Bool :=
  m1.all (fun p => dictGetS m2 p.1 = some p.2) && m2.all (fun p => dictGetS m1 p.1 = some p.2)

/-- Insert into the register cache dict (`registers[start + idx] = val`). -/
def dictInsertN (m : List (Nat × Nat)) (k v : Nat) : List (Nat × Nat) :=
  if m.any (fun p => p.1 = k) then m.map (fun p => if p.1 = k then (k, v) else p)
  else m ++ [(k, v)]

def dictGetN (m : List (Nat × Nat)) (k : Nat) : Option Nat :=
  (m.find? (fun p => p.1 = k)).map (·.2)

/-- One span read of a cycle: the span bounds and the transport outcome
(`none` = the read raised or returned an error response and was skipped). -/
structure SpanRead where
  start : Nat
  count : Nat
  result : Option (List Nat)
deriving Repr

/-- The register-cache accumulation loop of `_async_update_definitions`:
successful spans write `registers[start + idx] = reg_val`, failed spans
are skipped. -/
def accumRegisters (reads : List SpanRead) : List (Nat × Nat) :=
  reads.foldl
    (fun regs r =>
      match r.result with
      | none => regs
      | some vals => vals.enum.foldl (fun acc iv => dictInsertN acc (r.start + iv.1) iv.2) regs)
    []

/-- The decode loop: a field with any register address missing from the
cache, or whose decode returns nothing, is simply absent from the partial
result. -/
def decodeAll (items : List DefinitionItem) (registers : List (Nat × Nat)) : Snapshot :=
  items.foldl
    (fun data item =>
      match item.registers.mapM (fun addr => dictGetN registers addr) with
      | none => data
      | some regs =>
          match decodeItem item regs with
          | none => data
          | some v => dictInsertS data item.key v)
    []

/-- The merge of lines 216-222: `merged = dict(prev); merged.update(data);
return prev if merged == prev else merged`. -/
def mergeStep (prev data : Snapshot) : Snapshot :=
  let merged := dictUpdateS prev data
  if pyDictEq merged prev then prev else merged

/-- The body of the outer `try` of `_async_update_definitions`; `.error`
models a raised `UpdateFailed`. -/
def updateInner (items : List DefinitionItem) (prev : Snapshot) (reads : List SpanRead)
    (readTs lastTs : Nat) : Except String Snapshot :=
  let registers := accumRegisters reads
  if registers = [] then
    if prev ≠ [] then .ok prev
    else .error "No Modbus definition reads succeeded; keeping previous data"
  else
    let data := decodeAll items registers
    if data = [] then
      if prev ≠ [] then .ok prev
      else .error "Definition decode produced no values; keeping previous data"
    else if readTs ≤ lastTs then
      -- stale-read guard: returns the existing coordinator data, which is
      -- exactly `prev` (both read from the same coordinator)
      .ok prev
    else
      .ok (mergeStep prev data)

/-- `_async_update_definitions`: the whole body sits in
`try: ... except Exception: return prev`, so a raised `UpdateFailed`
is caught by the blanket handler and the previous snapshot is returned. -/
def updateCycle (items : List DefinitionItem) (prev : Snapshot) (reads : List SpanRead)
    (readTs lastTs : Nat) : Snapshot :=
  match updateInner items prev reads readTs lastTs with
  | .ok s => s
  | .error _ => prev

/-! ### Write paths (number.py and select.py)

The transport is modelled by the outcome of each call it could receive,
and a run records the transport calls actually issued, the result
(`.error` models a raised `HomeAssistantError`), and whether
`coordinator.async_request_refresh()` was reached. -/

inductive TCall where
  | readCall (addr count : Nat)
  | writeCall (addr : Nat) (value : Int)
deriving DecidableEq, Repr

structure Transport where
  /-- Outcome of `async_read_holding_registers(addr, count)`: `none` when
  the call raises or returns an error response. -/
  readResult : Nat → Nat → Option (List Nat)
  /-- Whether `async_write_register(addr, value)` raises. -/
  writeRaises : Nat → Int → Bool

/-- The distinct raise sites of `number.async_set_native_value` and
`_to_raw`. -/
inductive NumberErr where
  | notWritable
  | belowMin
  | aboveMax
  | zeroDivision
  | rawOutOfRange
  | noRegister
  | writeFailed
  | verifyMismatch
deriving DecidableEq, Repr

structure WriteRun (ε : Type) where
  result : Except ε Unit
  calls : List TCall
  refreshRequested : Bool
deriving Repr

/-- `_WRITABLE_NUMBER_KEYS`. -/
def writableNumberKeys : List String :=
  ["program_1_power", "program_2_power", "program_3_power",
   "program_4_power", "program_5_power", "program_6_power",
   "program_1_voltage", "program_2_voltage", "program_3_voltage",
   "program_4_voltage", "program_5_voltage", "program_6_voltage",
   "program_1_soc", "program_2_soc", "program_3_soc",
   "program_4_soc", "program_5_soc", "program_6_soc",
   "battery_max_charging_current", "battery_max_discharging_current",
   "battery_generator_charging_current", "battery_grid_charging_current",
   "battery_shutdown_soc", "battery_restart_soc", "battery_low_soc",
   "battery_grid_charging_start", "battery_generator_charging_start"]

/-- Python `round` (banker rounding: ties go to the even integer),
composed with `int(...)` which is the identity on the integer result. -/
def pyRound (q : Rat) : Int :=
  let f := ⌊q⌋
  let frac := q - (f : Rat)
  if frac < 1/2 then f
  else if frac > 1/2 then f + 1
  else if f % 2 = 0 then f else f + 1

/-- `_to_raw` (number.py): bounds validation, inverse scale, rounding and
the 16-bit range check. The input is already numeric, so the
`float(value)` conversion cannot fail. `.zeroDivision` models the
uncaught `ZeroDivisionError` a zero list-scale factor would raise. -/
def toRaw (item : DefinitionItem) (value : Rat) : Except NumberErr Int :=
  match item.range_min with
  | some mn =>
      if value < mn then .error .belowMin
      else toRawAfterMin item value
  | none => toRawAfterMin item value
where
  toRawAfterMin (item : DefinitionItem) (value : Rat) : Except NumberErr Int :=
    match item.range_max with
    | some mx =>
        if value > mx then .error .aboveMax
        else toRawScaled item value
    | none => toRawScaled item value
  toRawScaled (item : DefinitionItem) (value : Rat) : Except NumberErr Int :=
    let scaled : Except NumberErr Rat :=
      match item.scale with
      | some (.snum n) => if n.truthy then .ok (value / n.toRat) else .ok value
      | some (.slist (s0 :: srest)) =>
          let factor : Rat :=
            match srest with
            | s1 :: _ => if s1.truthy then s0.toRat / s1.toRat else s0.toRat
            | [] => s0.toRat
          if factor = 0 then .error .zeroDivision else .ok (value / factor)
      | some (.slist []) => .ok value
      | none => .ok value
    match scaled with
    | .error e => .error e
    | .ok v =>
        let rawValue := pyRound v
        if rawValue < 0 ∨ rawValue > 65535 then .error .rawOutOfRange
        else .ok rawValue

/-- `async_set_native_value` (number.py). -/
def numberSetNativeValue (item : DefinitionItem) (value : Rat) (t : Transport) :
    WriteRun NumberErr :=
  if item.key ∉ writableNumberKeys then ⟨.error .notWritable, [], false⟩
  else
    match toRaw item value with
    | .error e => ⟨.error e, [], false⟩
    | .ok raw =>
        if item.registers = [] then ⟨.error .noRegister, [], false⟩
        else
          let address := item.registers.headD 0
          if t.writeRaises address raw then
            ⟨.error .writeFailed, [.writeCall address raw], false⟩
          else
            let calls := [.writeCall address raw, TCall.readCall address 1]
            match t.readResult address 1 with
            | none =>
                -- verification read failed: logged, write still succeeds
                ⟨.ok (), calls, true⟩
            | some [] =>
                -- `registers[0]` raises IndexError, caught by the
                -- verification `except Exception` handler: logged only
                ⟨.ok (), calls, true⟩
            | some (rv :: _) =>
                if (rv : Int) ≠ raw then ⟨.error .verifyMismatch, calls, false⟩
                else ⟨.ok (), calls, true⟩

/-- The raise sites of `select.async_select_option`. Everything raised
inside the outer `try` is wrapped into `Failed to write: ...`, which
`.failedWrite` records together with the inner cause. -/
inductive SelectInnerErr where
  | readBeforeWrite
  | writeRaised
  | verifyMismatch
deriving DecidableEq, Repr

inductive SelectErr where
  | notWritable
  | noLookup
  | invalidOption
  | noRegister
  | failedWrite (inner : SelectInnerErr)
deriving DecidableEq, Repr

/-- `_WRITABLE_SELECT_KEYS`. -/
def writableSelectKeys : List String :=
  ["time_of_use", "program_1_charging", "program_2_charging",
   "program_3_charging", "program_4_charging", "program_5_charging",
   "program_6_charging"]

/-- The canonical dict (first-insertion order, final values) denoted by a
lookup write sequence; used to model iteration over `lookup.items()`. -/
def dictCanonZ (writes : List (Int × Value)) : List (Int × Value) :=
  writes.foldl
    (fun acc p =>
      if acc.any (fun q => q.1 = p.1) then acc.map (fun q => if q.1 = p.1 then (q.1, p.2) else q)
      else acc ++ [p])
    []

/-- `reverse = {v: k for k, v in lookup.items()}` followed by
`reverse.get(option)`: the last raw key (in dict iteration order) whose
value equals the chosen option. -/
def reverseLookupGet (l : List (Int × Value)) (opt : Value) : Option Int :=
  ((dictCanonZ l).reverse.find? (fun p => p.2 = opt)).map (·.1)

/-- The shared write + read-back-verification tail of
`async_select_option`: issue the write, then compare the read-back value
(only the masked bits for masked fields); a failed verification read is
logged and the write still succeeds and requests a refresh. -/
def selectWritePhase (t : Transport) (address : Nat) (valueToWrite : Int)
    (maskVal : Option Int) (calls0 : List TCall) : WriteRun SelectErr :=
  if t.writeRaises address valueToWrite then
    ⟨.error (.failedWrite .writeRaised), calls0 ++ [.writeCall address valueToWrite], false⟩
  else
    let calls := calls0 ++ [.writeCall address valueToWrite, .readCall address 1]
    match t.readResult address 1 with
    | none => ⟨.ok (), calls, true⟩
    | some [] => ⟨.ok (), calls, true⟩
    | some (rv :: _) =>
        match maskVal with
        | some m =>
            if Int.land (rv : Int) m ≠ Int.land valueToWrite m then
              ⟨.error (.failedWrite .verifyMismatch), calls, false⟩
            else ⟨.ok (), calls, true⟩
        | none =>
            if (rv : Int) ≠ valueToWrite then
              ⟨.error (.failedWrite .verifyMismatch), calls, false⟩
            else ⟨.ok (), calls, true⟩

/-- `async_select_option` (select.py). `opt` is the chosen option string. -/
def selectSelectOption (item : DefinitionItem) (opt : String) (t : Transport) :
    WriteRun SelectErr :=
  if item.key ∉ writableSelectKeys then ⟨.error .notWritable, [], false⟩
  else
    match item.lookup with
    | none => ⟨.error .noLookup, [], false⟩
    | some l =>
        if l.isEmpty then ⟨.error .noLookup, [], false⟩
        else
          match reverseLookupGet l (.vstr opt) with
          | none => ⟨.error .invalidOption, [], false⟩
          | some value =>
              if item.registers = [] then ⟨.error .noRegister, [], false⟩
              else
                let address := item.registers.headD 0
                -- outer try: mask read-modify-write, write, verification
                let maskVal : Option Int :=
                  match item.mask with
                  | some m => if m ≠ 0 then some m else none
                  | none => none
                match maskVal with
                | some m =>
                    (match t.readResult address 1 with
                     | none =>
                         ⟨.error (.failedWrite .readBeforeWrite), [.readCall address 1], false⟩
                     | some [] =>
                         ⟨.error (.failedWrite .readBeforeWrite), [.readCall address 1], false⟩
                     | some (current :: _) =>
                         let valueToWrite :=
                           Int.lor (Int.land (current : Int) (Int.lnot m)) (Int.land value m)
                         selectWritePhase t address valueToWrite (some m)
                           [.readCall address 1])
                | none => selectWritePhase t address value none []

/-! ## Concrete fixtures used by the theorems -/

/-- A bcd-datetime field descriptor (platform `datetime`, rule 8),
as `load_definition` produces for the system-time entry. -/
def dtTestItem : DefinitionItem :=
  { key := "system_time", name := "System Time", platform := "datetime",
    registers := [22, 23, 24], scale := none, lookup := none,
    group := "Device", icon := none, unit := none, rule := some 8 }

def c3PrevSnap : Snapshot := [("battery_soc", .vint 55)]

/-- Two spans whose reads both failed (no registers read at all). -/
def c3FailedReads : List SpanRead := [⟨3, 2, none⟩, ⟨60, 4, none⟩]

/-! ## Claims -/

/-- C1 (counterexample): decoding the three registers whose bytes are the
BCD encodings 0x24/0x12/0x31/0x23/0x59 does NOT return 2024-12-31 23:59:
`_decode_two_digit_year` tries the plain-binary reading of the year byte
first, and 0x24 = 36 is a valid two-digit binary year mapped to 2036, so
the decoder returns 2036-12-31 23:59. -/
theorem c1_bcd_year_counterexample :
    decodeItem dtTestItem [0x2412, 0x3123, 0x5900] ≠
      some (.vdt ⟨2024, 12, 31, 23, 59, 0⟩) := by
  decide

/-- C1 (amended): registers whose bytes are the BCD encodings year = 0x24,
month = 0x12, day = 0x31, hour = 0x23, minute = 0x59 decode to the valid
date-time 2036-12-31 23:59 (the year byte is read as binary 36 → 2000+36;
the binary reading takes precedence over the BCD reading "24" → 2024),
and a register set whose year byte is 0xFF — implausible under both
binary and BCD readings — makes the decoder return nothing, the field
being omitted for the cycle rather than raising or fabricating a date. -/
theorem c1_bcd_datetime_decode_amended :
    decodeItem dtTestItem [0x2412, 0x3123, 0x5900] =
      some (.vdt ⟨2036, 12, 31, 23, 59, 0⟩) ∧
    decodeItem dtTestItem [0xFF12, 0x3123, 0x5900] = none := by
  constructor
  · decide
  · decide

/-- C2: the permutation stage of `_decode_datetime_from_regs` never
returns a result, because its `return` statement is indented beneath the
preceding `continue` and is unreachable. On registers
`[0x0C1F, 0x07E8, 0x173B]` stage (a) fails (month byte 0x1F is neither a
valid binary nor BCD month), the permutation `(1, 0, 2)` would decode
year 0x07E8 = 2024, month/day 12/31, hour/minute 23/59, and the byte
fallback stage fails, so the code returns nothing where the claimed
first-fully-valid-permutation behaviour (modelled by
`decodeDatetimeFromRegsIntended`) returns 2024-12-31 23:59. -/
theorem c2_permutation_stage_dead_code :
    decodeDatetimeFromRegs [0x0C1F, 0x07E8, 0x173B] = none ∧
    (∀ regsIn : List Nat, permutationStage regsIn = none) ∧
    permutationStageIntended [0x0C1F, 0x07E8, 0x173B] =
      some ⟨2024, 12, 31, 23, 59, 0⟩ ∧
    decodeDatetimeFromRegsIntended [0x0C1F, 0x07E8, 0x173B] =
      some ⟨2024, 12, 31, 23, 59, 0⟩ := by
  refine ⟨by decide, fun _ => rfl, by decide, by decide⟩

/-- C3: when zero spans succeed, a non-empty previous snapshot is indeed
returned unchanged; but on the first cycle (empty previous snapshot) the
`UpdateFailed` raised inside the update body is caught by the blanket
`except Exception: return prev` of `_async_update_definitions`, so the
function returns the empty snapshot instead of propagating the failure to
the coordinator. -/
theorem c3_total_failure_swallowed :
    updateCycle [] c3PrevSnap c3FailedReads 1 0 = c3PrevSnap ∧
    updateInner [] [] c3FailedReads 1 0 =
      .error "No Modbus definition reads succeeded; keeping previous data" ∧
    updateCycle [] [] c3FailedReads 1 0 = [] := by
  refine ⟨by decide, rfl, by decide⟩

/-! ### Dictionary lemmas for the merge semantics -/

theorem dictGetS_cons (h : String × Value) (t : Snapshot) (k : String) :
    dictGetS (h :: t) k = if h.1 = k then some h.2 else dictGetS t k := by
  by_cases hk : h.1 = k <;> simp [dictGetS, List.find?_cons, hk]

theorem dictGetS_map_replace (m : Snapshot) (k : String) (v : Value) (k' : String) :
    dictGetS (m.map (fun p => if p.1 = k then (k, v) else p)) k' =
      if k' = k then (if m.any (fun p => p.1 = k) then some v else none)
      else dictGetS m k' := by
  induction m with
  | nil => by_cases h : k' = k <;> simp [dictGetS, h]
  | cons h t ih =>
      simp only [List.map_cons, List.any_cons]
      by_cases hk : h.1 = k
      · simp only [hk, if_pos rfl]
        by_cases hk' : k' = k
        · subst hk'; simp [hk, dictGetS_cons]
        · have hne : ¬(k = k') := fun e => hk' e.symm
          have hh' : ¬(h.1 = k') := hk ▸ hne
          simp [dictGetS_cons, hne, hh', ih, hk']
      · simp only [hk, if_false]
        by_cases hk' : k' = k
        · subst hk'
          simp [dictGetS_cons, ih, hk]
          rw [Bool.false_or]
        · simp [dictGetS_cons, ih, hk', hk]

theorem dictGetS_dictInsertS (m : Snapshot) (k : String) (v : Value) (k' : String) :
    dictGetS (dictInsertS m k v) k' = if k' = k then some v else dictGetS m k' := by
  unfold dictInsertS
  by_cases hmem : (m.any fun p => p.1 = k) = true
  · rw [if_pos hmem, dictGetS_map_replace, hmem]
    by_cases hk' : k' = k <;> simp [hk']
  · rw [if_neg hmem]
    unfold dictGetS
    rw [List.find?_append]
    have hnone : m.find? (fun p => decide (p.1 = k)) = none := by
      rw [List.find?_eq_none]
      intro p hp hdec
      exact hmem (List.any_eq_true.mpr ⟨p, hp, hdec⟩)
    by_cases hk' : k' = k
    · subst hk'
      rw [hnone]
      simp [List.find?_cons]
    · have h2 : List.find? (fun p => decide (p.1 = k')) [(k, v)] = none := by
        have hne : ¬((k, v).1 = k') := fun e => hk' e.symm
        simp [List.find?_cons, hne]
      rw [h2]
      simp [hk']

theorem dictUpdateS_cons (m : Snapshot) (h : String × Value) (t : Snapshot) :
    dictUpdateS m (h :: t) = dictUpdateS (dictInsertS m h.1 h.2) t := rfl

theorem dictGetS_eq_none_iff (m : Snapshot) (k : String) :
    dictGetS m k = none ↔ ∀ p ∈ m, p.1 ≠ k := by
  simp [dictGetS, List.find?_eq_none]

theorem dictGetS_dictUpdateS_of_none (data : Snapshot) :
    ∀ (m : Snapshot) (k : String), dictGetS data k = none →
      dictGetS (dictUpdateS m data) k = dictGetS m k := by
  induction data with
  | nil => intro m k _; rfl
  | cons h t ih =>
      intro m k hk
      rw [dictGetS_cons] at hk
      by_cases hh : h.1 = k
      · simp [hh] at hk
      · rw [if_neg hh] at hk
        rw [dictUpdateS_cons, ih _ _ hk, dictGetS_dictInsertS]
        have : ¬(k = h.1) := fun e => hh e.symm
        simp [this]

theorem dictGetS_mem (m : Snapshot) (k : String) (v : Value) :
    dictGetS m k = some v → (k, v) ∈ m := by
  intro h
  unfold dictGetS at h
  cases hf : m.find? (fun p => decide (p.1 = k)) with
  | none => simp [hf] at h
  | some p =>
      simp [hf] at h
      have hp := List.find?_some hf
      have hm := List.mem_of_find?_eq_some hf
      simp at hp
      have : p = (k, v) := by
        cases p with
        | mk a b => simp at hp h ⊢; exact ⟨hp, h⟩
      exact this ▸ hm

theorem dictGetS_dictUpdateS_of_some (data : Snapshot) :
    ∀ (m : Snapshot) (k : String) (v : Value), (data.map Prod.fst).Nodup →
      dictGetS data k = some v → dictGetS (dictUpdateS m data) k = some v := by
  induction data with
  | nil => intro m k v _ h; simp [dictGetS] at h
  | cons hd t ih =>
      intro m k v hnd hk
      rw [dictGetS_cons] at hk
      rw [List.map_cons, List.nodup_cons] at hnd
      by_cases hh : hd.1 = k
      · rw [if_pos hh] at hk
        have hv : v = hd.2 := by simpa using hk.symm
        have hnone : dictGetS t k = none := by
          rw [dictGetS_eq_none_iff]
          intro p hp he
          exact hnd.1 (hh ▸ he ▸ List.mem_map_of_mem Prod.fst hp)
        rw [dictUpdateS_cons, dictGetS_dictUpdateS_of_none t _ _ hnone,
            dictGetS_dictInsertS]
        simp [hh, hv]
      · rw [if_neg hh] at hk
        rw [dictUpdateS_cons]
        exact ih _ _ _ hnd.2 hk

theorem pyDictEq_forward (m1 m2 : Snapshot) (h : pyDictEq m1 m2 = true) :
    ∀ p ∈ m1, dictGetS m2 p.1 = some p.2 := by
  unfold pyDictEq at h
  rw [Bool.and_eq_true] at h
  intro p hp
  have := List.all_eq_true.mp h.1 p hp
  simpa using this

/-- C4: the merged snapshot equals `prev` with exactly the keys present in
the partial result `data` overwritten by their new values (keys of `prev`
absent from `data` keep their old value), and when the merge result is
dict-equal to `prev` the cycle returns `prev` itself. The no-duplicate
hypothesis holds for every Python dict and hence for the partial result
built by the decode loop. -/
theorem c4_merge_semantics :
    ∀ (prev data : Snapshot), (data.map Prod.fst).Nodup →
      ((∀ k v, dictGetS data k = some v → dictGetS (mergeStep prev data) k = some v) ∧
       (∀ k, dictGetS data k = none → dictGetS (mergeStep prev data) k = dictGetS prev k) ∧
       (pyDictEq (dictUpdateS prev data) prev = true → mergeStep prev data = prev)) := by
  intro prev data hnd
  refine ⟨?_, ?_, ?_⟩
  · intro k v hk
    unfold mergeStep
    by_cases he : pyDictEq (dictUpdateS prev data) prev = true
    · rw [if_pos he]
      have hm : dictGetS (dictUpdateS prev data) k = some v :=
        dictGetS_dictUpdateS_of_some data prev k v hnd hk
      exact pyDictEq_forward _ _ he (k, v) (dictGetS_mem _ _ _ hm)
    · rw [if_neg he]
      exact dictGetS_dictUpdateS_of_some data prev k v hnd hk
  · intro k hk
    unfold mergeStep
    by_cases he : pyDictEq (dictUpdateS prev data) prev = true
    · rw [if_pos he]
    · rw [if_neg he]
      exact dictGetS_dictUpdateS_of_none data prev k hk
  · intro he
    unfold mergeStep
    rw [if_pos he]

/-- C4 witness: the spec example — `prev = {a: 1, b: 2}`, only `a`
re-decoded (to 5) this cycle — merges to `{a: 5, b: 2}`. -/
theorem c4_merge_semantics_witness :
    dictGetS (mergeStep [("a", .vint 1), ("b", .vint 2)] [("a", .vint 5)]) "a" =
      some (.vint 5) ∧
    dictGetS (mergeStep [("a", .vint 1), ("b", .vint 2)] [("a", .vint 5)]) "b" =
      some (.vint 2) := by
  constructor
  · exact (c4_merge_semantics [("a", .vint 1), ("b", .vint 2)] [("a", .vint 5)]
      (by decide)).1 "a" (.vint 5) (by decide)
  · have h := (c4_merge_semantics [("a", .vint 1), ("b", .vint 2)] [("a", .vint 5)]
      (by decide)).2.1 "b" (by decide)
    rw [h]
    decide

/-- A rule-4 (unsigned32-high-low) definition entry, valid in every other
respect. -/
def c6Rule4Item : RawItem :=
  { platform := some "sensor", rule := some 4, registers := [60, 61],
    name := some "Total PV Energy", uom := some "kWh" }

/-- The descriptor the loader would produce for `c6Rule4Item` if it kept
rule-4 entries. -/
def c6Rule4Descriptor : DefinitionItem :=
  { key := "total_pv_energy", name := "Total PV Energy", platform := "sensor",
    registers := [60, 61], scale := none, lookup := none, group := "Solar",
    icon := none, unit := some "kWh", rule := some 4 }

/-- C6 (counterexample): an otherwise-valid unsigned32-high-low (rule 4)
entry is dropped by `load_definition` — the loader keeps only rules
(None, 1, 2, 8, 9) — even though `_decode_item` can decode rule 4
(here `(2 <<< 16) ||| 5 = 131077`). -/
theorem c6_unsigned32_dropped_counterexample :
    loadDefinition [{ group := some "Solar", items := [c6Rule4Item] }] = [] ∧
    decodeRulePhase c6Rule4Descriptor [2, 5] = some (.vint 131077) := by
  constructor
  · decide
  · decide

/-- C6 (amended): an otherwise-valid entry (not attribute-only, supported
platform, non-empty registers, non-empty stripped name) is retained by the
loader exactly when its rule is in the loader set {None, 1, 2, 8, 9};
in particular unsigned32-high-low (4) and packed-ascii-string (5/7)
entries are dropped at load time even though the decoder supports them. -/
theorem c6_supported_rules_amended :
    ∀ (g : String) (item : RawItem),
      item.attributeEntry = none →
      item.platform.getD "sensor" ∈ supportedPlatforms →
      item.registers ≠ [] →
      effectiveName item ≠ "" →
      ((loadItem g item).isSome ↔ loaderRuleSupported item.rule) := by
  intro g item hattr hplat hregs hname
  unfold loadItem
  rw [hattr]
  simp only [Option.isSome_none, Bool.false_eq_true, if_false]
  by_cases hrule : loaderRuleSupported item.rule
  · simp only [hrule, not_true, if_false, iff_true]
    rw [if_neg (by simpa using hplat), if_neg hregs, if_neg hname]
    simp
  · simp [hrule]

/-- C6 witness: a concrete rule-1 sensor entry is retained. -/
theorem c6_supported_rules_amended_witness :
    (loadItem "Solar"
      { platform := some "sensor", rule := some 1, registers := [10],
        name := some "Battery SOC" }).isSome := by
  exact (c6_supported_rules_amended "Solar" _ rfl (by decide) (by decide)
    (by decide)).mpr (Or.inr (Or.inl rfl))

/-- Helper: whatever the verification outcome, the first two transport
calls recorded by the select write phase (after the masked-read prefix)
are that read and the write. -/
theorem selectWritePhase_calls_take2 :
    ∀ (t : Transport) (addr : Nat) (w : Int) (mv : Option Int) (a : Nat),
      (selectWritePhase t addr w mv [.readCall a 1]).calls.take 2 =
        [.readCall a 1, .writeCall addr w] := by
  intro t addr w mv a
  unfold selectWritePhase
  by_cases hw : t.writeRaises addr w
  · simp [hw]
  · simp only [hw, Bool.false_eq_true, if_false]
    rcases t.readResult addr 1 with _ | ⟨_ | ⟨rv, rvs⟩⟩ <;>
      rcases mv with _ | m <;>
      simp <;> split <;> simp

/-- C7: for a masked writable select field, the write path first reads
the current register value and then writes
`(current & ~mask) | (new_raw & mask)`; every bit outside the mask of the
written word equals the corresponding bit of the current value. -/
theorem c7_masked_write_preserves_bits :
    ∀ (item : DefinitionItem) (opt : String) (t : Transport) (l : List (Int × Value))
      (value m : Int) (addr : Nat) (rest : List Nat) (current : Nat) (regsRest : List Nat),
      item.key ∈ writableSelectKeys →
      item.lookup = some l →
      l ≠ [] →
      reverseLookupGet l (.vstr opt) = some value →
      item.registers = addr :: rest →
      item.mask = some m →
      m ≠ 0 →
      t.readResult addr 1 = some (current :: regsRest) →
      ((selectSelectOption item opt t).calls.take 2 =
        [.readCall addr 1,
         .writeCall addr (Int.lor (Int.land (current : Int) (Int.lnot m)) (Int.land value m))] ∧
       (∀ i : Nat, m.testBit i = false →
         (Int.lor (Int.land (current : Int) (Int.lnot m)) (Int.land value m)).testBit i =
           (current : Int).testBit i)) := by
  intro item opt t l value m addr rest current regsRest hw hlook hlne hrev hregs hmask hm hread
  constructor
  · unfold selectSelectOption
    rw [if_neg (not_not_intro hw), hlook]
    have hempty : l.isEmpty = false := by
      cases l with
      | nil => exact absurd rfl hlne
      | cons a b => rfl
    simp only [hempty, Bool.false_eq_true, if_false, hrev, hregs]
    rw [if_neg (by simp : ¬(addr :: rest = []))]
    simp only [List.headD_cons, hmask, hm]
    rw [if_pos hm]
    simp only [hread]
    exact selectWritePhase_calls_take2 t addr _ (some m) addr
  · intro i hbit
    simp [Int.testBit_lor, Int.testBit_land, Int.testBit_lnot, hbit]

/-- C7 witness: with current register 0b11110000 = 240, mask 0b00001111
= 15 and raw value 3, the word written is 0b11110011 = 243. -/
theorem c7_masked_write_preserves_bits_witness :
    ∃ item : DefinitionItem, ∃ t : Transport,
      (selectSelectOption item "On" t).calls.take 2 =
        [.readCall 100 1, .writeCall 100 243] := by
  refine ⟨{ key := "time_of_use", name := "Time of Use", platform := "select",
            registers := [100], scale := none,
            lookup := some [(3, .vstr "On"), (0, .vstr "Off")],
            group := "g", icon := none, unit := none, rule := some 1,
            mask := some 15 },
          { readResult := fun _ _ => some [240], writeRaises := fun _ _ => false }, ?_⟩
  have h := c7_masked_write_preserves_bits
    { key := "time_of_use", name := "Time of Use", platform := "select",
      registers := [100], scale := none,
      lookup := some [(3, .vstr "On"), (0, .vstr "Off")],
      group := "g", icon := none, unit := none, rule := some 1,
      mask := some 15 }
    "On"
    { readResult := fun _ _ => some [240], writeRaises := fun _ _ => false }
    [(3, .vstr "On"), (0, .vstr "Off")] 3 15 100 [] 240 []
    (by decide) rfl (by decide) (by decide) rfl rfl (by decide) rfl
  have hld : Nat.ldiff 240 15 = 240 := by
    apply Nat.eq_of_testBit_eq
    intro i
    rw [Nat.testBit_ldiff]
    by_cases hi : i < 8
    · interval_cases i <;> decide
    · have h8 : (240 : Nat) < 2 ^ 8 := by norm_num
      have hle : (2 : Nat) ^ 8 ≤ 2 ^ i := Nat.pow_le_pow_right (by norm_num) (by omega)
      have h240 : Nat.testBit 240 i = false := Nat.testBit_lt_two_pow (lt_of_lt_of_le h8 hle)
      simp [h240]
  have hval : ((((240 : Nat)) : Int).land (Int.lnot 15)).lor (Int.land 3 15) = 243 := by
    have h1 : Int.land (((240 : Nat)) : Int) (Int.lnot 15) = ((Nat.ldiff 240 15 : Nat) : Int) := rfl
    rw [h1, hld]
    decide
  rw [h.1, hval]

/-- C8: for a writable numeric field with declared bounds, a value above
the maximum (when the minimum check does not fire first) or below the
minimum is rejected inside `_to_raw`, before any transport call: the run
records zero transport calls and no refresh. -/
theorem c8_out_of_range_rejected_before_transport :
    ∀ (item : DefinitionItem) (value : Rat) (t : Transport),
      item.key ∈ writableNumberKeys →
      (((∃ mx, item.range_max = some mx ∧ value > mx) ∧
        (∀ mn, item.range_min = some mn → ¬value < mn)) ∨
       (∃ mn, item.range_min = some mn ∧ value < mn)) →
      (((numberSetNativeValue item value t).result = .error .aboveMax ∨
        (numberSetNativeValue item value t).result = .error .belowMin) ∧
       (numberSetNativeValue item value t).calls = [] ∧
       (numberSetNativeValue item value t).refreshRequested = false) := by
  intro item value t hw hout
  have htr : toRaw item value = .error .belowMin ∨ toRaw item value = .error .aboveMax := by
    rcases hout with ⟨⟨mx, hmx, hgt⟩, hmin⟩ | ⟨mn, hmn, hlt⟩
    · right
      unfold toRaw
      cases hmincase : item.range_min with
      | none =>
          unfold toRaw.toRawAfterMin
          rw [hmx]
          simp [hgt]
      | some mn =>
          unfold toRaw.toRawAfterMin
          rw [hmx]
          simp [hgt, hmin mn hmincase]
    · left
      unfold toRaw
      rw [hmn]
      simp [hlt]
  unfold numberSetNativeValue
  rw [if_neg (not_not_intro hw)]
  rcases htr with h | h <;> rw [h]
  · exact ⟨Or.inr rfl, rfl, rfl⟩
  · exact ⟨Or.inl rfl, rfl, rfl⟩

/-- A writable number field with `range_max = 100`. -/
def c8Item : DefinitionItem :=
  { key := "program_1_power", name := "Program 1 Power", platform := "number",
    registers := [154], scale := none, lookup := none, group := "g",
    icon := none, unit := some "W", rule := some 1, range_max := some 100 }

def c8Transport : Transport :=
  { readResult := fun _ _ => some [0], writeRaises := fun _ _ => false }

/-- C8 witness: writing 500 against `range_max = 100` is rejected with
zero transport calls. -/
theorem c8_witness :
    ((numberSetNativeValue c8Item 500 c8Transport).result = .error .aboveMax ∨
     (numberSetNativeValue c8Item 500 c8Transport).result = .error .belowMin) ∧
    (numberSetNativeValue c8Item 500 c8Transport).calls = [] ∧
    (numberSetNativeValue c8Item 500 c8Transport).refreshRequested = false := by
  exact c8_out_of_range_rejected_before_transport c8Item 500 c8Transport
    (by decide)
    (Or.inl ⟨⟨100, rfl, by norm_num⟩, fun mn hmn => by simp [c8Item] at hmn⟩)

/-- C9: after a successful register write the path reads the register
back and compares — the full word for unmasked number fields, only the
masked bits for masked select fields — raising a verification error and
requesting no refresh on mismatch, while a failed verification read is
only logged, the write succeeds and the refresh is still requested. -/
theorem c9_write_verification :
    (∀ (item : DefinitionItem) (value : Rat) (t : Transport) (raw : Int) (addr : Nat)
       (rest : List Nat) (rv : Nat) (rvs : List Nat),
       item.key ∈ writableNumberKeys →
       toRaw item value = .ok raw →
       item.registers = addr :: rest →
       t.writeRaises addr raw = false →
       t.readResult addr 1 = some (rv :: rvs) →
       (rv : Int) ≠ raw →
       numberSetNativeValue item value t =
         ⟨.error .verifyMismatch, [.writeCall addr raw, .readCall addr 1], false⟩) ∧
    (∀ (item : DefinitionItem) (value : Rat) (t : Transport) (raw : Int) (addr : Nat)
       (rest : List Nat),
       item.key ∈ writableNumberKeys →
       toRaw item value = .ok raw →
       item.registers = addr :: rest →
       t.writeRaises addr raw = false →
       t.readResult addr 1 = none →
       numberSetNativeValue item value t =
         ⟨.ok (), [.writeCall addr raw, .readCall addr 1], true⟩) ∧
    (∀ (t : Transport) (addr : Nat) (w m : Int) (c0 : List TCall) (rv : Nat) (rvs : List Nat),
       t.writeRaises addr w = false →
       t.readResult addr 1 = some (rv :: rvs) →
       ((Int.land (rv : Int) m ≠ Int.land w m →
           selectWritePhase t addr w (some m) c0 =
             ⟨.error (.failedWrite .verifyMismatch),
              c0 ++ [.writeCall addr w, .readCall addr 1], false⟩) ∧
        (Int.land (rv : Int) m = Int.land w m →
           selectWritePhase t addr w (some m) c0 =
             ⟨.ok (), c0 ++ [.writeCall addr w, .readCall addr 1], true⟩))) ∧
    (∀ (t : Transport) (addr : Nat) (w : Int) (mv : Option Int) (c0 : List TCall),
       t.writeRaises addr w = false →
       t.readResult addr 1 = none →
       selectWritePhase t addr w mv c0 =
         ⟨.ok (), c0 ++ [.writeCall addr w, .readCall addr 1], true⟩) := by
  refine ⟨?_, ?_, ?_, ?_⟩
  · intro item value t raw addr rest rv rvs hw htr hregs hwr hread hne
    unfold numberSetNativeValue
    rw [if_neg (not_not_intro hw), htr, hregs]
    simp [hwr, hread, hne]
  · intro item value t raw addr rest hw htr hregs hwr hread
    unfold numberSetNativeValue
    rw [if_neg (not_not_intro hw), htr, hregs]
    simp [hwr, hread]
  · intro t addr w m c0 rv rvs hwr hread
    constructor
    · intro hne
      unfold selectWritePhase
      simp only [hwr, Bool.false_eq_true, if_false, hread]
      rw [if_pos hne]
    · intro heq
      unfold selectWritePhase
      simp only [hwr, Bool.false_eq_true, if_false, hread]
      rw [if_neg (by simp [heq])]
  · intro t addr w mv c0 hwr hread
    unfold selectWritePhase
    simp only [hwr, Bool.false_eq_true, if_false, hread]

/-- A writable number field with no scale and no bounds, on register 154. -/
def c9Item : DefinitionItem :=
  { key := "program_1_power", name := "Program 1 Power", platform := "number",
    registers := [154], scale := none, lookup := none, group := "g",
    icon := none, unit := some "W", rule := some 1 }

def c9MismatchTransport : Transport :=
  { readResult := fun _ _ => some [8], writeRaises := fun _ _ => false }

def c9ReadFailTransport : Transport :=
  { readResult := fun _ _ => none, writeRaises := fun _ _ => false }

/-- C9 witness: concrete mismatch and read-failure runs for both the
number path and the masked select write phase. -/
theorem c9_write_verification_witness :
    numberSetNativeValue c9Item 7 c9MismatchTransport =
      ⟨.error .verifyMismatch, [.writeCall 154 7, .readCall 154 1], false⟩ ∧
    numberSetNativeValue c9Item 7 c9ReadFailTransport =
      ⟨.ok (), [.writeCall 154 7, .readCall 154 1], true⟩ ∧
    selectWritePhase c9MismatchTransport 154 1 (some 1) [] =
      ⟨.error (.failedWrite .verifyMismatch),
       [.writeCall 154 1, .readCall 154 1], false⟩ ∧
    selectWritePhase c9ReadFailTransport 154 1 (some 1) [] =
      ⟨.ok (), [.writeCall 154 1, .readCall 154 1], true⟩ := by
  have h7 : toRaw c9Item 7 = .ok 7 := by
    unfold toRaw toRaw.toRawAfterMin toRaw.toRawScaled
    norm_num [c9Item, pyRound]
  refine ⟨?_, ?_, ?_, ?_⟩
  · exact c9_write_verification.1 c9Item 7 c9MismatchTransport 7 154 [] 8 []
      (by decide) h7 rfl rfl rfl (by decide)
  · exact c9_write_verification.2.1 c9Item 7 c9ReadFailTransport 7 154 []
      (by decide) h7 rfl rfl rfl
  · exact (c9_write_verification.2.2.1 c9MismatchTransport 154 1 1 [] 8 []
      rfl rfl).1 (by decide)
  · exact c9_write_verification.2.2.2 c9ReadFailTransport 154 1 (some 1) [] rfl rfl

/-- Multiplying a datetime by any scale raises `TypeError` in Python. -/
theorem mulScale_none_of_vdt (d : DateTime) : ∀ s : ScaleSpec, mulScale (.vdt d) s = none := by
  intro s
  rcases s with n | l
  · rcases n with n | q <;> rfl
  · rfl

/-- Multiplying a time by any scale raises `TypeError` in Python. -/
theorem mulScale_none_of_vtime (ti : TimeOfDay) : ∀ s : ScaleSpec, mulScale (.vtime ti) s = none := by
  intro s
  rcases s with n | l
  · rcases n with n | q <;> rfl
  · rfl

/-- The scale step leaves a value unchanged whenever the multiplication
would raise, whatever scale the override table or the item supplies. -/
theorem applyScale_of_mulScale_none (item : DefinitionItem) (v : Value)
    (h : ∀ s : ScaleSpec, mulScale v s = none) : applyScale item v = v := by
  unfold applyScale
  rcases hf : scaleOverrides.find? (fun p => p.1 = item.key) with _ | p <;>
    simp only [hf]
  · rcases hs : item.scale with _ | s
    · simp [hs]
    · simp only [hs]
      by_cases ht : s.truthy
      · simp [ht, h]
      · simp [ht]
  · by_cases ht : (ScaleSpec.snum p.2).truthy
    · simp [ht, h]
    · simp [ht]

/-- C10: the post-decode pipeline of `_decode_item` is total — it returns
a value or `none` and never raises: the divide step is skipped entirely
when the divisor is absent or zero (so no division by zero is possible),
and the offset, mask, divide and scale steps each leave the value
unchanged whenever applying them would raise a `TypeError` (string,
datetime, time or list operands; a float scale on a string). -/
theorem c10_pipeline_total_and_skips :
    (∀ (item : DefinitionItem) (regs : List Nat),
       decodeItem item regs = none ∨ ∃ v, decodeItem item regs = some v) ∧
    (∀ (v : Value),
       applyDivide none v = v ∧
       applyDivide (some (.pint 0)) v = v ∧
       applyDivide (some (.pfloat 0)) v = v) ∧
    (∀ (o : Option PyNum) (s : String) (d : DateTime) (ti : TimeOfDay) (l : List PyNum),
       applyOffset o (.vstr s) = .vstr s ∧
       applyOffset o (.vdt d) = .vdt d ∧
       applyOffset o (.vtime ti) = .vtime ti ∧
       applyOffset o (.vlist l) = .vlist l) ∧
    (∀ (m : Option Int) (q : Rat) (s : String) (d : DateTime) (ti : TimeOfDay) (l : List PyNum),
       applyMask m (.vfloat q) = .vfloat q ∧
       applyMask m (.vstr s) = .vstr s ∧
       applyMask m (.vdt d) = .vdt d ∧
       applyMask m (.vtime ti) = .vtime ti ∧
       applyMask m (.vlist l) = .vlist l) ∧
    (∀ (dv : Option PyNum) (s : String) (d : DateTime) (ti : TimeOfDay) (l : List PyNum),
       applyDivide dv (.vstr s) = .vstr s ∧
       applyDivide dv (.vdt d) = .vdt d ∧
       applyDivide dv (.vtime ti) = .vtime ti ∧
       applyDivide dv (.vlist l) = .vlist l) ∧
    (∀ (item : DefinitionItem) (d : DateTime) (ti : TimeOfDay),
       applyScale item (.vdt d) = .vdt d ∧ applyScale item (.vtime ti) = .vtime ti) ∧
    (∀ (item : DefinitionItem) (q : Rat) (s : String),
       scaleOverrides.find? (fun p => p.1 = item.key) = none →
       item.scale = some (.snum (.pfloat q)) →
       applyScale item (.vstr s) = .vstr s) := by
  refine ⟨?_, ?_, ?_, ?_, ?_, ?_, ?_⟩
  · intro item regs
    cases h : decodeItem item regs with
    | none => exact Or.inl rfl
    | some v => exact Or.inr ⟨v, rfl⟩
  · intro v
    exact ⟨rfl, by simp [applyDivide, PyNum.truthy], by simp [applyDivide, PyNum.truthy]⟩
  · intro o s d ti l
    have hgen : ∀ v : Value, (∀ x : PyNum, subNum v x = none) → applyOffset o v = v := by
      intro v hv
      rcases o with _ | x
      · rfl
      · unfold applyOffset
        by_cases ht : x.truthy <;> simp [ht, hv]
    exact ⟨hgen _ (fun x => by rcases x with n | q <;> rfl),
           hgen _ (fun x => by rcases x with n | q <;> rfl),
           hgen _ (fun x => by rcases x with n | q <;> rfl),
           hgen _ (fun x => by rcases x with n | q <;> rfl)⟩
  · intro m q s d ti l
    refine ⟨?_, ?_, ?_, ?_, ?_⟩ <;> (rcases m with _ | mm <;> rfl)
  · intro dv s d ti l
    have hgen : ∀ v : Value, (∀ x : PyNum, divNum v x = none) → applyDivide dv v = v := by
      intro v hv
      rcases dv with _ | x
      · rfl
      · unfold applyDivide
        by_cases ht : x.truthy <;> simp [ht, hv]
    exact ⟨hgen _ (fun x => rfl), hgen _ (fun x => rfl),
           hgen _ (fun x => rfl), hgen _ (fun x => rfl)⟩
  · intro item d ti
    exact ⟨applyScale_of_mulScale_none item _ (mulScale_none_of_vdt d),
           applyScale_of_mulScale_none item _ (mulScale_none_of_vtime ti)⟩
  · intro item q s hf hs
    unfold applyScale
    rw [hf, hs]
    by_cases hq : (ScaleSpec.snum (.pfloat q)).truthy <;> simp [hq, mulScale, mulNum]

/-- C10 witness: concrete instances of the totality and skip behaviour. -/
theorem c10_pipeline_total_and_skips_witness :
    (decodeItem dtTestItem [1, 2] = none ∨ ∃ v, decodeItem dtTestItem [1, 2] = some v) ∧
    applyDivide (some (.pint 0)) (.vint 5) = .vint 5 ∧
    applyOffset (some (.pint 3)) (.vstr "abc") = .vstr "abc" ∧
    applyMask (some 7) (.vfloat (1/2)) = .vfloat (1/2) ∧
    applyDivide (some (.pint 2)) (.vdt ⟨2024, 1, 1, 0, 0, 0⟩) = .vdt ⟨2024, 1, 1, 0, 0, 0⟩ ∧
    applyScale { dtTestItem with key := "serial_number", scale := some (.snum (.pfloat (1/10))) }
      (.vstr "abc") = .vstr "abc" := by
  refine ⟨c10_pipeline_total_and_skips.1 dtTestItem [1, 2],
          (c10_pipeline_total_and_skips.2.1 (.vint 5)).2.1,
          (c10_pipeline_total_and_skips.2.2.1 (some (.pint 3)) "abc" ⟨2024, 1, 1, 0, 0, 0⟩ ⟨0,0,0⟩ []).1,
          (c10_pipeline_total_and_skips.2.2.2.1 (some 7) (1/2) "abc" ⟨2024, 1, 1, 0, 0, 0⟩ ⟨0,0,0⟩ []).1,
          (c10_pipeline_total_and_skips.2.2.2.2.1 (some (.pint 2)) "abc" ⟨2024, 1, 1, 0, 0, 0⟩ ⟨0,0,0⟩ []).2.1,
          c10_pipeline_total_and_skips.2.2.2.2.2.2
            { dtTestItem with key := "serial_number", scale := some (.snum (.pfloat (1/10))) }
            (1/10) "abc" (by decide) rfl⟩

/-- A left fold of `min` never exceeds its initial value. -/
theorem foldl_min_le_init (x : Nat) (xs : List Nat) : xs.foldl min x ≤ x := by
  induction xs generalizing x with
  | nil => exact Nat.le_refl x
  | cons a t ih => exact Nat.le_trans (ih (min x a)) (Nat.min_le_left x a)

/-- A left fold of `max` is at least its initial value. -/
theorem le_foldl_max_init (x : Nat) (xs : List Nat) : x ≤ xs.foldl max x := by
  induction xs generalizing x with
  | nil => exact Nat.le_refl x
  | cons a t ih => exact Nat.le_trans (Nat.le_max_left x a) (ih (max x a))

/-- `min(registers)` never exceeds `max(registers)` (also on `[]`). -/
theorem minList_le_maxList (l : List Nat) : minList l ≤ maxList l := by
  cases l with
  | nil => exact Nat.le_refl 0
  | cons x xs =>
      exact Nat.le_trans (foldl_min_le_init x xs) (le_foldl_max_init x xs)

/-- Every item range is non-degenerate: start < end. -/
theorem itemRange_wf (item : DefinitionItem) : (itemRange item).1 < (itemRange item).2 := by
  unfold itemRange
  exact Nat.lt_succ_of_le (minList_le_maxList item.registers)

/-- Every address covered by the current group or by one of the remaining
sorted ranges is covered by some emitted span. -/
theorem mergeLoop_covers :
    ∀ (rs : List (Nat × Nat)) (cs ce a : Nat),
      cs < ce → (∀ r ∈ rs, cs ≤ r.1) → rs.Pairwise rangeLE → (∀ r ∈ rs, r.1 < r.2) →
      ((cs ≤ a ∧ a < ce) ∨ ∃ r ∈ rs, r.1 ≤ a ∧ a < r.2) →
      ∃ sp ∈ mergeLoop cs ce rs, sp.1 ≤ a ∧ a < sp.1 + sp.2 := by
  intro rs
  induction rs with
  | nil =>
      intro cs ce a hlt _ _ _ hcov
      rcases hcov with ⟨h1, h2⟩ | ⟨r, hr, _⟩
      · exact ⟨(cs, ce - cs), List.mem_singleton.mpr rfl, h1, by omega⟩
      · exact absurd hr (List.not_mem_nil r)
  | cons r rest ih =>
      intro cs ce a hlt hlb hsort hwf hcov
      rw [List.pairwise_cons] at hsort
      unfold mergeLoop
      by_cases hr : r.1 ≤ ce
      · rw [if_pos hr]
        apply ih cs (max ce r.2) a
        · omega
        · exact fun r' hr' => hlb r' (List.mem_cons_of_mem r hr')
        · exact hsort.2
        · exact fun r' hr' => hwf r' (List.mem_cons_of_mem r hr')
        · rcases hcov with ⟨h1, h2⟩ | ⟨r', hr', h1, h2⟩
          · exact Or.inl ⟨h1, by omega⟩
          · rcases List.mem_cons.mp hr' with heq | hmem
            · have h1' : r.1 ≤ a := heq ▸ h1
              have h2' : a < r.2 := heq ▸ h2
              exact Or.inl ⟨Nat.le_trans (hlb r (List.mem_cons_self r rest)) h1', by omega⟩
            · exact Or.inr ⟨r', hmem, h1, h2⟩
      · rw [if_neg hr]
        rcases hcov with ⟨h1, h2⟩ | ⟨r', hr', h1, h2⟩
        · exact ⟨(cs, ce - cs), List.mem_cons_self _ _, h1, by omega⟩
        · have hwfr : r.1 < r.2 := hwf r (List.mem_cons_self r rest)
          rcases List.mem_cons.mp hr' with heq | hmem
          · have h1' : r.1 ≤ a := heq ▸ h1
            have h2' : a < r.2 := heq ▸ h2
            have ⟨sp, hsp, hc⟩ := ih r.1 r.2 a hwfr
              (fun x hx => hsort.1 x hx)
              hsort.2
              (fun x hx => hwf x (List.mem_cons_of_mem _ hx))
              (Or.inl ⟨h1', h2'⟩)
            exact ⟨sp, List.mem_cons_of_mem _ hsp, hc⟩
          · have ⟨sp, hsp, hc⟩ := ih r.1 r.2 a hwfr
              (fun x hx => hsort.1 x hx)
              hsort.2
              (fun x hx => hwf x (List.mem_cons_of_mem _ hx))
              (Or.inr ⟨r', hmem, h1, h2⟩)
            exact ⟨sp, List.mem_cons_of_mem _ hsp, hc⟩

/-- The first emitted span always starts at the current group start. -/
theorem mergeLoop_head :
    ∀ (rs : List (Nat × Nat)) (cs ce : Nat), ∃ c tail, mergeLoop cs ce rs = (cs, c) :: tail := by
  intro rs
  induction rs with
  | nil => exact fun cs ce => ⟨ce - cs, [], rfl⟩
  | cons r rest ih =>
      intro cs ce
      unfold mergeLoop
      by_cases hr : r.1 ≤ ce
      · rw [if_pos hr]; exact ih cs (max ce r.2)
      · rw [if_neg hr]; exact ⟨ce - cs, mergeLoop r.1 r.2 rest, rfl⟩

/-- On sorted well-formed input the emitted spans are strictly separated:
each span ends strictly before the next begins. -/
theorem mergeLoop_chain :
    ∀ (rs : List (Nat × Nat)) (cs ce : Nat),
      cs < ce → rs.Pairwise rangeLE → (∀ r ∈ rs, r.1 < r.2) →
      (mergeLoop cs ce rs).Chain' (fun a b => a.1 + a.2 < b.1) := by
  intro rs
  induction rs with
  | nil => intro cs ce _ _ _; exact List.chain'_singleton _
  | cons r rest ih =>
      intro cs ce hlt hsort hwf
      rw [List.pairwise_cons] at hsort
      unfold mergeLoop
      by_cases hr : r.1 ≤ ce
      · rw [if_pos hr]
        exact ih cs (max ce r.2) (by omega) hsort.2
          (fun x hx => hwf x (List.mem_cons_of_mem r hx))
      · rw [if_neg hr]
        have hwfr : r.1 < r.2 := hwf r (List.mem_cons_self r rest)
        have htail := ih r.1 r.2 hwfr hsort.2
          (fun x hx => hwf x (List.mem_cons_of_mem r hx))
        have ⟨c, tail, heq⟩ := mergeLoop_head rest r.1 r.2
        rw [heq]
        rw [heq] at htail
        exact List.chain'_cons.mpr ⟨by simp; omega, htail⟩

/-- Every emitted span covers at least one register. -/
theorem mergeLoop_counts :
    ∀ (rs : List (Nat × Nat)) (cs ce : Nat),
      cs < ce → (∀ r ∈ rs, r.1 < r.2) →
      ∀ sp ∈ mergeLoop cs ce rs, 1 ≤ sp.2 := by
  intro rs
  induction rs with
  | nil =>
      intro cs ce hlt _ sp hsp
      rw [List.mem_singleton.mp hsp]
      simp
      omega
  | cons r rest ih =>
      intro cs ce hlt hwf sp hsp
      unfold mergeLoop at hsp
      by_cases hr : r.1 ≤ ce
      · rw [if_pos hr] at hsp
        exact ih cs (max ce r.2) (by omega)
          (fun x hx => hwf x (List.mem_cons_of_mem r hx)) sp hsp
      · rw [if_neg hr] at hsp
        rcases List.mem_cons.mp hsp with heq | hmem
        · subst heq; simp; omega
        · exact ih r.1 r.2 (hwf r (List.mem_cons_self r rest))
            (fun x hx => hwf x (List.mem_cons_of_mem r hx)) sp hmem

end Deye
namespace Deye

instance : RightCommutative (fun (acc : Nat) (r : Nat × Nat) => max acc r.2) :=
  ⟨fun b a1 a2 => by simp [Nat.max_assoc, Nat.max_comm a1.2 a2.2]⟩

/-- The defining step of the merge loop: a range merges into the current
group exactly when its start is ≤ the current merged end. -/
theorem mergeLoop_cons (cs ce : Nat) (r : Nat × Nat) (rest : List (Nat × Nat)) :
    mergeLoop cs ce (r :: rest) =
      if r.1 ≤ ce then mergeLoop cs (max ce r.2) rest
      else (cs, ce - cs) :: mergeLoop r.1 r.2 rest := rfl

/-- A prefix of ranges that all start inside the current group is wholly
absorbed, leaving the maximum of the collected ends. -/
theorem mergeLoop_absorb :
    ∀ (b : List (Nat × Nat)) (cs ce : Nat) (rest : List (Nat × Nat)),
      (∀ r ∈ b, r.1 ≤ ce) →
      mergeLoop cs ce (b ++ rest) =
        mergeLoop cs (b.foldl (fun acc r => max acc r.2) ce) rest := by
  intro b
  induction b with
  | nil => intro cs ce rest _; rfl
  | cons r0 b' ih =>
      intro cs ce rest hle
      rw [List.cons_append, mergeLoop_cons]
      rw [if_pos (hle r0 (List.mem_cons_self r0 b'))]
      rw [ih cs (max ce r0.2) rest
        (fun x hx => Nat.le_trans (hle x (List.mem_cons_of_mem r0 hx)) (Nat.le_max_left _ _))]
      simp only [List.foldl_cons]

/-- Processing a non-empty block of ranges with one common start `m`:
either the block merges into the current group, or the group is emitted
and the block becomes the new group; in both cases only the multiset of
block ends matters (through the `max` fold). -/
theorem mergeLoop_block :
    ∀ (b : List (Nat × Nat)) (m cs ce : Nat) (rest : List (Nat × Nat)),
      b ≠ [] → (∀ r ∈ b, r.1 = m) → (∀ r ∈ b, r.1 < r.2) →
      mergeLoop cs ce (b ++ rest) =
        if m ≤ ce then mergeLoop cs (b.foldl (fun acc r => max acc r.2) ce) rest
        else (cs, ce - cs) :: mergeLoop m (b.foldl (fun acc r => max acc r.2) m) rest := by
  intro b m cs ce rest hne hstarts hwf
  by_cases hm : m ≤ ce
  · rw [if_pos hm]
    exact mergeLoop_absorb b cs ce rest (fun r hr => (hstarts r hr) ▸ hm)
  · rw [if_neg hm]
    cases b with
    | nil => exact absurd rfl hne
    | cons r0 b' =>
        have hr0 : r0.1 = m := hstarts r0 (List.mem_cons_self r0 b')
        have hr0wf : r0.1 < r0.2 := hwf r0 (List.mem_cons_self r0 b')
        rw [List.cons_append, mergeLoop_cons]
        rw [if_neg (by omega : ¬r0.1 ≤ ce)]
        rw [mergeLoop_absorb b' r0.1 r0.2 rest
          (fun x hx => by
            have := hstarts x (List.mem_cons_of_mem r0 hx)
            omega)]
        have hfold : b'.foldl (fun acc r => max acc r.2) r0.2 =
            (r0 :: b').foldl (fun acc r => max acc r.2) m := by
          simp only [List.foldl_cons]
          congr 1
          omega
        rw [hfold, hr0]

/-- In a list sorted by start whose starts are all ≥ `m`, the `takeWhile`
prefix of start-`m` ranges is exactly the filter, and the remainder is the
complementary filter. -/
theorem takeWhile_eq_filter_min :
    ∀ (l : List (Nat × Nat)) (m : Nat),
      l.Pairwise rangeLE → (∀ r ∈ l, m ≤ r.1) →
      (l.takeWhile (fun r => r.1 == m) = l.filter (fun r => r.1 == m) ∧
       l.dropWhile (fun r => r.1 == m) = l.filter (fun r => !(r.1 == m))) := by
  intro l
  induction l with
  | nil => intro m _ _; exact ⟨rfl, rfl⟩
  | cons h t ih =>
      intro m hsort hlb
      rw [List.pairwise_cons] at hsort
      by_cases hh : h.1 = m
      · have hbeq : (h.1 == m) = true := beq_iff_eq.mpr hh
        have ⟨iht, ihd⟩ := ih m hsort.2 (fun r hr => hlb r (List.mem_cons_of_mem h hr))
        constructor
        · rw [List.takeWhile_cons, hbeq]
          simp only [List.filter_cons, hbeq, if_true]
          rw [iht]
        · rw [List.dropWhile_cons, hbeq]
          simp only [List.filter_cons, hbeq]
          simp only [Bool.not_true, if_false]
          exact ihd
      · have hmlt : m < h.1 :=
          Nat.lt_of_le_of_ne (hlb h (List.mem_cons_self h t)) (fun e => hh e.symm)
        have hbeq : (h.1 == m) = false := beq_eq_false_iff_ne.mpr hh
        have hall : ∀ r ∈ h :: t, (r.1 == m) = false := by
          intro r hr
          rcases List.mem_cons.mp hr with heq | hmem
          · rw [heq]; exact hbeq
          · have : h.1 ≤ r.1 := hsort.1 r hmem
            exact beq_eq_false_iff_ne.mpr (by omega)
        constructor
        · rw [List.takeWhile_cons, hbeq]
          simp only [Bool.false_eq_true, if_false]
          have : (h :: t).filter (fun r => r.1 == m) = [] := by
            rw [List.filter_eq_nil_iff]
            intro r hr
            simp [hall r hr]
          rw [this]
        · rw [List.dropWhile_cons, hbeq]
          simp only [Bool.false_eq_true, if_false]
          have : (h :: t).filter (fun r => !(r.1 == m)) = h :: t := by
            rw [List.filter_eq_self]
            intro r hr
            simp [hall r hr]
          rw [this]

end Deye
namespace Deye

/-- The merge loop gives the same spans on any two sorted lists that are
permutations of each other: sorted permutations differ only in the order
of ranges with equal starts, and such a block contributes only the
maximum of its ends. -/
theorem mergeLoop_perm_sorted :
    ∀ (n : Nat) (s1 s2 : List (Nat × Nat)) (cs ce : Nat),
      s1.length ≤ n → s1.Perm s2 → s1.Pairwise rangeLE → s2.Pairwise rangeLE →
      (∀ r ∈ s1, r.1 < r.2) →
      mergeLoop cs ce s1 = mergeLoop cs ce s2 := by
  intro n
  induction n with
  | zero =>
      intro s1 s2 cs ce hlen hperm _ _ _
      have h1 : s1 = [] := List.length_eq_zero.mp (Nat.le_zero.mp hlen)
      subst h1
      rw [(hperm.symm.eq_nil : s2 = [])]
  | succ n ih =>
      intro s1 s2 cs ce hlen hperm hs1 hs2 hwf
      cases s1 with
      | nil => rw [(hperm.symm.eq_nil : s2 = [])]
      | cons h1 t1 =>
          cases s2 with
          | nil => exact absurd hperm.eq_nil (List.cons_ne_nil h1 t1)
          | cons h2 t2 =>
              have hlb1 : ∀ r ∈ h1 :: t1, h1.1 ≤ r.1 := by
                intro r hr
                rcases List.mem_cons.mp hr with he | hm
                · rw [he]
                · exact (List.pairwise_cons.mp hs1).1 r hm
              have hlb2 : ∀ r ∈ h2 :: t2, h2.1 ≤ r.1 := by
                intro r hr
                rcases List.mem_cons.mp hr with he | hm
                · rw [he]
                · exact (List.pairwise_cons.mp hs2).1 r hm
              have hm2mem : h2 ∈ h1 :: t1 := hperm.mem_iff.mpr (List.mem_cons_self h2 t2)
              have hm1mem : h1 ∈ h2 :: t2 := hperm.mem_iff.mp (List.mem_cons_self h1 t1)
              have heq21 : h2.1 = h1.1 :=
                Nat.le_antisymm (hlb2 h1 hm1mem) (hlb1 h2 hm2mem)
              have hlb2' : ∀ r ∈ h2 :: t2, h1.1 ≤ r.1 := fun r hr => heq21 ▸ hlb2 r hr
              have hf1 := takeWhile_eq_filter_min (h1 :: t1) h1.1 hs1 hlb1
              have hf2 := takeWhile_eq_filter_min (h2 :: t2) h1.1 hs2 hlb2'
              have hsplit1 : h1 :: t1 =
                  (h1 :: t1).filter (fun r => r.1 == h1.1) ++
                  (h1 :: t1).filter (fun r => !(r.1 == h1.1)) := by
                rw [← hf1.1, ← hf1.2, List.takeWhile_append_dropWhile]
              have hsplit2 : h2 :: t2 =
                  (h2 :: t2).filter (fun r => r.1 == h1.1) ++
                  (h2 :: t2).filter (fun r => !(r.1 == h1.1)) := by
                rw [← hf2.1, ← hf2.2, List.takeWhile_append_dropWhile]
              have hbperm : ((h1 :: t1).filter (fun r => r.1 == h1.1)).Perm
                  ((h2 :: t2).filter (fun r => r.1 == h1.1)) := hperm.filter _
              have hrperm : ((h1 :: t1).filter (fun r => !(r.1 == h1.1))).Perm
                  ((h2 :: t2).filter (fun r => !(r.1 == h1.1))) := hperm.filter _
              have hb1ne : (h1 :: t1).filter (fun r => r.1 == h1.1) ≠ [] :=
                List.ne_nil_of_mem
                  (List.mem_filter.mpr ⟨List.mem_cons_self h1 t1, beq_iff_eq.mpr rfl⟩)
              have hb2ne : (h2 :: t2).filter (fun r => r.1 == h1.1) ≠ [] :=
                List.ne_nil_of_mem
                  (List.mem_filter.mpr ⟨List.mem_cons_self h2 t2, beq_iff_eq.mpr heq21⟩)
              have hb1starts : ∀ r ∈ (h1 :: t1).filter (fun r => r.1 == h1.1), r.1 = h1.1 :=
                fun r hr => beq_iff_eq.mp (List.mem_filter.mp hr).2
              have hb2starts : ∀ r ∈ (h2 :: t2).filter (fun r => r.1 == h1.1), r.1 = h1.1 :=
                fun r hr => beq_iff_eq.mp (List.mem_filter.mp hr).2
              have hwf2 : ∀ r ∈ h2 :: t2, r.1 < r.2 :=
                fun r hr => hwf r (hperm.mem_iff.mpr hr)
              have hb1wf : ∀ r ∈ (h1 :: t1).filter (fun r => r.1 == h1.1), r.1 < r.2 :=
                fun r hr => hwf r (List.mem_of_mem_filter hr)
              have hb2wf : ∀ r ∈ (h2 :: t2).filter (fun r => r.1 == h1.1), r.1 < r.2 :=
                fun r hr => hwf2 r (List.mem_of_mem_filter hr)
              have hfoldce : ((h1 :: t1).filter (fun r => r.1 == h1.1)).foldl
                    (fun acc r => max acc r.2) ce =
                  ((h2 :: t2).filter (fun r => r.1 == h1.1)).foldl
                    (fun acc r => max acc r.2) ce := hbperm.foldl_eq ce
              have hfoldm : ((h1 :: t1).filter (fun r => r.1 == h1.1)).foldl
                    (fun acc r => max acc r.2) h1.1 =
                  ((h2 :: t2).filter (fun r => r.1 == h1.1)).foldl
                    (fun acc r => max acc r.2) h1.1 := hbperm.foldl_eq h1.1
              have hlen1 : ((h1 :: t1).filter (fun r => !(r.1 == h1.1))).length ≤ n := by
                have hl := congrArg List.length hsplit1
                rw [List.length_append] at hl
                have hbpos : 0 < ((h1 :: t1).filter (fun r => r.1 == h1.1)).length :=
                  List.length_pos.mpr hb1ne
                simp only [List.length_cons] at hl hlen
                omega
              have hrec : ∀ cs' ce',
                  mergeLoop cs' ce' ((h1 :: t1).filter (fun r => !(r.1 == h1.1))) =
                  mergeLoop cs' ce' ((h2 :: t2).filter (fun r => !(r.1 == h1.1))) := by
                intro cs' ce'
                exact ih _ _ cs' ce' hlen1 hrperm
                  (List.Pairwise.sublist (List.filter_sublist _) hs1)
                  (List.Pairwise.sublist (List.filter_sublist _) hs2)
                  (fun r hr => hwf r (List.mem_of_mem_filter hr))
              conv_lhs => rw [hsplit1]
              conv_rhs => rw [hsplit2]
              rw [mergeLoop_block _ h1.1 cs ce _ hb1ne hb1starts hb1wf,
                  mergeLoop_block _ h1.1 cs ce _ hb2ne hb2starts hb2wf]
              by_cases hm : h1.1 ≤ ce
              · rw [if_pos hm, if_pos hm, hfoldce, hrec]
              · rw [if_neg hm, if_neg hm, hfoldm, hrec]

end Deye
namespace Deye

instance : IsTrans (Nat × Nat) (fun a b => a.1 + a.2 < b.1) :=
  ⟨fun _ _ _ h1 h2 => by omega⟩

/-- A synthetic field whose register range is exactly the span
`[start, start + count)`; used to state idempotence of `_build_spans`. -/
def spanToItem (sp : Nat × Nat) : DefinitionItem :=
  { key := "", name := "", platform := "sensor",
    registers := [sp.1, sp.1 + sp.2 - 1],
    scale := none, lookup := none, group := "", icon := none, unit := none,
    rule := none }

/-- The range of a span-field is the span itself (for positive counts). -/
theorem itemRange_spanToItem (sp : Nat × Nat) (h : 1 ≤ sp.2) :
    itemRange (spanToItem sp) = (sp.1, sp.1 + sp.2) := by
  unfold itemRange spanToItem minList maxList
  simp only [List.foldl_cons, List.foldl_nil]
  rw [Prod.mk.injEq]
  constructor
  · simp [Nat.min_def]
    omega
  · simp [Nat.max_def]
    split <;> omega

/-- The merge loop returns already-separated spans unchanged. -/
theorem mergeLoop_separated :
    ∀ (l : List (Nat × Nat)) (s c : Nat),
      ((s, c) :: l).Chain' (fun a b => a.1 + a.2 < b.1) →
      mergeLoop s (s + c) (l.map (fun sp => (sp.1, sp.1 + sp.2))) = (s, c) :: l := by
  intro l
  induction l with
  | nil =>
      intro s c _
      unfold mergeLoop
      simp
  | cons sp1 t ih =>
      intro s c hch
      rw [List.chain'_cons] at hch
      simp only [List.map_cons]
      rw [mergeLoop_cons]
      rw [if_neg (by have := hch.1; simp at this ⊢; omega)]
      have htail : mergeLoop sp1.1 (sp1.1 + sp1.2) (t.map (fun sp => (sp.1, sp.1 + sp.2))) =
          (sp1.1, sp1.2) :: t := ih sp1.1 sp1.2 (by simpa using hch.2)
      rw [htail]
      simp

/-- The spans built from any item list are strictly separated in order. -/
theorem buildSpans_chain (items : List DefinitionItem) :
    (buildSpans items).Chain' (fun a b => a.1 + a.2 < b.1) := by
  unfold buildSpans
  rcases hs : (items.map itemRange).insertionSort rangeLE with _ | ⟨r, rest⟩
  · exact List.chain'_nil
  · have hsorted := List.sorted_insertionSort rangeLE (items.map itemRange)
    rw [hs, List.sorted_cons] at hsorted
    have hwfall : ∀ x ∈ r :: rest, x.1 < x.2 := by
      intro x hx
      have : x ∈ (items.map itemRange).insertionSort rangeLE := hs ▸ hx
      have hx2 : x ∈ items.map itemRange :=
        (List.perm_insertionSort rangeLE _).mem_iff.mp this
      obtain ⟨it, _, rfl⟩ := List.mem_map.mp hx2
      exact itemRange_wf it
    show (mergeLoop r.1 r.2 rest).Chain' (fun a b => a.1 + a.2 < b.1)
    exact mergeLoop_chain rest r.1 r.2
      (hwfall r (List.mem_cons_self r rest)) hsorted.2
      (fun x hx => hwfall x (List.mem_cons_of_mem r hx))

/-- Every built span has a positive register count. -/
theorem buildSpans_counts (items : List DefinitionItem) :
    ∀ sp ∈ buildSpans items, 1 ≤ sp.2 := by
  unfold buildSpans
  rcases hs : (items.map itemRange).insertionSort rangeLE with _ | ⟨r, rest⟩
  · intro sp hsp
    exact absurd hsp (List.not_mem_nil sp)
  · have hwfall : ∀ x ∈ r :: rest, x.1 < x.2 := by
      intro x hx
      have : x ∈ (items.map itemRange).insertionSort rangeLE := hs ▸ hx
      have hx2 : x ∈ items.map itemRange :=
        (List.perm_insertionSort rangeLE _).mem_iff.mp this
      obtain ⟨it, _, rfl⟩ := List.mem_map.mp hx2
      exact itemRange_wf it
    show ∀ sp ∈ mergeLoop r.1 r.2 rest, 1 ≤ sp.2
    exact mergeLoop_counts rest r.1 r.2 (hwfall r (List.mem_cons_self r rest))
      (fun x hx => hwfall x (List.mem_cons_of_mem r hx))

/-- Every address of every item register range is covered by some built
span. -/
theorem buildSpans_covers (items : List DefinitionItem) (item : DefinitionItem)
    (hmem : item ∈ items) (addr : Nat)
    (h1 : (itemRange item).1 ≤ addr) (h2 : addr < (itemRange item).2) :
    ∃ sp ∈ buildSpans items, sp.1 ≤ addr ∧ addr < sp.1 + sp.2 := by
  unfold buildSpans
  rcases hs : (items.map itemRange).insertionSort rangeLE with _ | ⟨r, rest⟩
  · exfalso
    have hp := List.perm_insertionSort rangeLE (items.map itemRange)
    rw [hs] at hp
    have : items.map itemRange = [] := hp.symm.eq_nil
    rw [List.map_eq_nil_iff] at this
    rw [this] at hmem
    exact List.not_mem_nil item hmem
  · have hsorted := List.sorted_insertionSort rangeLE (items.map itemRange)
    rw [hs, List.sorted_cons] at hsorted
    have hwfall : ∀ x ∈ r :: rest, x.1 < x.2 := by
      intro x hx
      have : x ∈ (items.map itemRange).insertionSort rangeLE := hs ▸ hx
      have hx2 : x ∈ items.map itemRange :=
        (List.perm_insertionSort rangeLE _).mem_iff.mp this
      obtain ⟨it, _, rfl⟩ := List.mem_map.mp hx2
      exact itemRange_wf it
    have hrmem : itemRange item ∈ r :: rest := by
      rw [← hs]
      exact (List.perm_insertionSort rangeLE _).mem_iff.mpr
        (List.mem_map_of_mem itemRange hmem)
    show ∃ sp ∈ mergeLoop r.1 r.2 rest, sp.1 ≤ addr ∧ addr < sp.1 + sp.2
    apply mergeLoop_covers rest r.1 r.2 addr
      (hwfall r (List.mem_cons_self r rest))
      (fun x hx => hsorted.1 x hx)
      hsorted.2
      (fun x hx => hwfall x (List.mem_cons_of_mem r hx))
    rcases List.mem_cons.mp hrmem with heq | hmem'
    · exact Or.inl ⟨heq ▸ h1, heq ▸ h2⟩
    · exact Or.inr ⟨itemRange item, hmem', h1, h2⟩

end Deye
namespace Deye

/-- The built spans are independent of the input field order. -/
theorem buildSpans_perm :
    ∀ (items items2 : List DefinitionItem), items.Perm items2 →
      buildSpans items = buildSpans items2 := by
  intro items items2 hp
  unfold buildSpans
  have hperm : ((items.map itemRange).insertionSort rangeLE).Perm
      ((items2.map itemRange).insertionSort rangeLE) :=
    (List.perm_insertionSort rangeLE _).trans
      ((hp.map itemRange).trans (List.perm_insertionSort rangeLE _).symm)
  have hs1 := List.sorted_insertionSort rangeLE (items.map itemRange)
  have hs2 := List.sorted_insertionSort rangeLE (items2.map itemRange)
  have hwf1 : ∀ x ∈ (items.map itemRange).insertionSort rangeLE, x.1 < x.2 := by
    intro x hx
    have hx2 : x ∈ items.map itemRange :=
      (List.perm_insertionSort rangeLE _).mem_iff.mp hx
    obtain ⟨it, _, rfl⟩ := List.mem_map.mp hx2
    exact itemRange_wf it
  rcases hc1 : (items.map itemRange).insertionSort rangeLE with _ | ⟨h1, t1⟩
  · rw [hc1] at hperm
    rw [hperm.symm.eq_nil]
  · rcases hc2 : (items2.map itemRange).insertionSort rangeLE with _ | ⟨h2, t2⟩
    · rw [hc1, hc2] at hperm
      exact absurd hperm.eq_nil (List.cons_ne_nil h1 t1)
    · rw [hc1, hc2] at hperm
      rw [hc1] at hs1 hwf1
      rw [hc2] at hs2
      show mergeLoop h1.1 h1.2 t1 = mergeLoop h2.1 h2.2 t2
      rw [List.sorted_cons] at hs1 hs2
      -- heads have the same (minimal) start
      have hlb1 : ∀ r ∈ h1 :: t1, h1.1 ≤ r.1 := by
        intro r hr
        rcases List.mem_cons.mp hr with he | hm
        · rw [he]
        · exact hs1.1 r hm
      have hlb2 : ∀ r ∈ h2 :: t2, h2.1 ≤ r.1 := by
        intro r hr
        rcases List.mem_cons.mp hr with he | hm
        · rw [he]
        · exact hs2.1 r hm
      have heq21 : h2.1 = h1.1 :=
        Nat.le_antisymm
          (hlb2 h1 (hperm.mem_iff.mp (List.mem_cons_self h1 t1)))
          (hlb1 h2 (hperm.mem_iff.mpr (List.mem_cons_self h2 t2)))
      have hwf2 : ∀ x ∈ h2 :: t2, x.1 < x.2 :=
        fun x hx => hwf1 x (hperm.mem_iff.mpr hx)
      have hwfh1 : h1.1 < h1.2 := hwf1 h1 (List.mem_cons_self h1 t1)
      have hwfh2 : h2.1 < h2.2 := hwf2 h2 (List.mem_cons_self h2 t2)
      -- decompose the tails into the equal-start block and the remainder
      have hft1 := takeWhile_eq_filter_min t1 h1.1 hs1.2
        (fun r hr => hlb1 r (List.mem_cons_of_mem h1 hr))
      have hft2 := takeWhile_eq_filter_min t2 h1.1 hs2.2
        (fun r hr => heq21 ▸ hlb2 r (List.mem_cons_of_mem h2 hr))
      have hsplit1 : t1 = t1.filter (fun r => r.1 == h1.1) ++
          t1.filter (fun r => !(r.1 == h1.1)) := by
        rw [← hft1.1, ← hft1.2, List.takeWhile_append_dropWhile]
      have hsplit2 : t2 = t2.filter (fun r => r.1 == h1.1) ++
          t2.filter (fun r => !(r.1 == h1.1)) := by
        rw [← hft2.1, ← hft2.2, List.takeWhile_append_dropWhile]
      have habs1 : mergeLoop h1.1 h1.2 t1 =
          mergeLoop h1.1
            ((t1.filter (fun r => r.1 == h1.1)).foldl (fun acc r => max acc r.2) h1.2)
            (t1.filter (fun r => !(r.1 == h1.1))) := by
        conv_lhs => rw [hsplit1]
        exact mergeLoop_absorb _ _ _ _
          (fun x hx => by
            have := beq_iff_eq.mp (List.mem_filter.mp hx).2
            omega)
      have habs2 : mergeLoop h2.1 h2.2 t2 =
          mergeLoop h1.1
            ((t2.filter (fun r => r.1 == h1.1)).foldl (fun acc r => max acc r.2) h2.2)
            (t2.filter (fun r => !(r.1 == h1.1))) := by
        conv_lhs => rw [hsplit2]
        rw [heq21]
        exact mergeLoop_absorb _ _ _ _
          (fun x hx => by
            have := beq_iff_eq.mp (List.mem_filter.mp hx).2
            omega)
      -- the block folds agree: they are folds from the same start over
      -- permuted blocks of the full lists
      have hfull1 : (h1 :: t1).filter (fun r => r.1 == h1.1) =
          h1 :: t1.filter (fun r => r.1 == h1.1) := by
        simp [List.filter_cons]
      have hfull2 : (h2 :: t2).filter (fun r => r.1 == h1.1) =
          h2 :: t2.filter (fun r => r.1 == h1.1) := by
        simp [List.filter_cons, heq21]
      have hbperm := hperm.filter (fun r => r.1 == h1.1)
      rw [hfull1, hfull2] at hbperm
      have hfold : (t1.filter (fun r => r.1 == h1.1)).foldl (fun acc r => max acc r.2) h1.2 =
          (t2.filter (fun r => r.1 == h1.1)).foldl (fun acc r => max acc r.2) h2.2 := by
        have e1 : (t1.filter (fun r => r.1 == h1.1)).foldl (fun acc r => max acc r.2) h1.2 =
            (h1 :: t1.filter (fun r => r.1 == h1.1)).foldl (fun acc r => max acc r.2) h1.1 := by
          simp only [List.foldl_cons]
          congr 1
          omega
        have e2 : (t2.filter (fun r => r.1 == h1.1)).foldl (fun acc r => max acc r.2) h2.2 =
            (h2 :: t2.filter (fun r => r.1 == h1.1)).foldl (fun acc r => max acc r.2) h1.1 := by
          simp only [List.foldl_cons]
          congr 1
          omega
        rw [e1, e2]
        exact hbperm.foldl_eq h1.1
      -- the remainders are sorted permutations of each other
      have hrperm := hperm.filter (fun r => !(r.1 == h1.1))
      have hr1eq : (h1 :: t1).filter (fun r => !(r.1 == h1.1)) =
          t1.filter (fun r => !(r.1 == h1.1)) := by
        simp [List.filter_cons]
      have hr2eq : (h2 :: t2).filter (fun r => !(r.1 == h1.1)) =
          t2.filter (fun r => !(r.1 == h1.1)) := by
        simp [List.filter_cons, heq21]
      rw [hr1eq, hr2eq] at hrperm
      rw [habs1, habs2, hfold]
      exact mergeLoop_perm_sorted (t1.filter (fun r => !(r.1 == h1.1))).length _ _ _ _
        (Nat.le_refl _) hrperm
        (List.Pairwise.sublist (List.filter_sublist _) hs1.2)
        (List.Pairwise.sublist (List.filter_sublist _) hs2.2)
        (fun r hr => hwf1 r (List.mem_cons_of_mem h1 (List.mem_of_mem_filter hr)))

/-- Rebuilding spans from the register ranges of the built spans returns
the same spans. -/
theorem buildSpans_idem (items : List DefinitionItem) :
    buildSpans ((buildSpans items).map spanToItem) = buildSpans items := by
  have hch := buildSpans_chain items
  have hct := buildSpans_counts items
  rcases hbs : buildSpans items with _ | ⟨sp0, tl⟩
  · rfl
  · rw [hbs] at hch hct
    have hranges : ((sp0 :: tl).map spanToItem).map itemRange =
        (sp0 :: tl).map (fun sp => (sp.1, sp.1 + sp.2)) := by
      rw [List.map_map]
      apply List.map_congr_left
      intro sp hsp
      exact itemRange_spanToItem sp (hct sp hsp)
    have hpw : ((sp0 :: tl).map (fun sp => (sp.1, sp.1 + sp.2))).Pairwise rangeLE := by
      have hgap : (sp0 :: tl).Pairwise (fun a b => a.1 + a.2 < b.1) :=
        List.chain'_iff_pairwise.mp hch
      refine List.Pairwise.map (fun (sp : Nat × Nat) => (sp.1, sp.1 + sp.2)) ?_ hgap
      intro a b h
      show rangeLE (a.1, a.1 + a.2) (b.1, b.1 + b.2)
      simp only [rangeLE]
      omega
    unfold buildSpans
    rw [hranges, List.Sorted.insertionSort_eq hpw]
    simp only [List.map_cons]
    show mergeLoop sp0.1 (sp0.1 + sp0.2) (tl.map (fun sp => (sp.1, sp.1 + sp.2))) = sp0 :: tl
    have := mergeLoop_separated tl sp0.1 sp0.2 (by simpa using hch)
    simpa using this

end Deye
namespace Deye

/-- C5: the `_build_spans` output covers every field register range, its
spans are pairwise non-overlapping and sorted by start (each span ends
strictly before the next starts), the output is independent of the input
field order, building spans from the ranges of the built spans yields the
same spans, the empty field list yields the empty span list, and two
ranges merge exactly when the next start is ≤ the current merged end. -/
theorem c5_build_spans_properties :
    (∀ (items : List DefinitionItem) (item : DefinitionItem), item ∈ items →
       ∀ addr : Nat, (itemRange item).1 ≤ addr → addr < (itemRange item).2 →
       ∃ sp ∈ buildSpans items, sp.1 ≤ addr ∧ addr < sp.1 + sp.2) ∧
    (∀ items : List DefinitionItem,
       (buildSpans items).Pairwise (fun a b => a.1 + a.2 < b.1)) ∧
    (∀ items items2 : List DefinitionItem, items.Perm items2 →
       buildSpans items = buildSpans items2) ∧
    (∀ items : List DefinitionItem,
       buildSpans ((buildSpans items).map spanToItem) = buildSpans items) ∧
    buildSpans [] = [] ∧
    (∀ (cs ce : Nat) (r : Nat × Nat) (rest : List (Nat × Nat)),
       mergeLoop cs ce (r :: rest) =
         if r.1 ≤ ce then mergeLoop cs (max ce r.2) rest
         else (cs, ce - cs) :: mergeLoop r.1 r.2 rest) :=
  ⟨fun items item hmem addr h1 h2 => buildSpans_covers items item hmem addr h1 h2,
   fun items => List.chain'_iff_pairwise.mp (buildSpans_chain items),
   buildSpans_perm,
   buildSpans_idem,
   rfl,
   mergeLoop_cons⟩

/-- Witness fields: registers {3,4}, {5} (adjacent, merges) and {10}. -/
def c5ItemA : DefinitionItem :=
  { key := "a", name := "a", platform := "sensor", registers := [3, 4],
    scale := none, lookup := none, group := "", icon := none, unit := none,
    rule := some 1 }

def c5ItemB : DefinitionItem :=
  { key := "b", name := "b", platform := "sensor", registers := [5],
    scale := none, lookup := none, group := "", icon := none, unit := none,
    rule := some 1 }

def c5ItemC : DefinitionItem :=
  { key := "c", name := "c", platform := "sensor", registers := [10],
    scale := none, lookup := none, group := "", icon := none, unit := none,
    rule := some 1 }

/-- C5 witness: fields over registers {3,4}, {5} and {10} produce the
spans [(3, 3), (10, 1)]; register 4 is covered, and a rotated input
yields the same spans. -/
theorem c5_build_spans_properties_witness :
    (∃ sp ∈ buildSpans [c5ItemA, c5ItemB, c5ItemC], sp.1 ≤ 4 ∧ 4 < sp.1 + sp.2) ∧
    buildSpans [c5ItemA, c5ItemB, c5ItemC] = buildSpans [c5ItemC, c5ItemA, c5ItemB] ∧
    buildSpans [c5ItemA, c5ItemB, c5ItemC] = [(3, 3), (10, 1)] := by
  refine ⟨?_, ?_, ?_⟩
  · exact c5_build_spans_properties.1 [c5ItemA, c5ItemB, c5ItemC] c5ItemA
      (by decide) 4 (by decide) (by decide)
  · exact c5_build_spans_properties.2.2.1 [c5ItemA, c5ItemB, c5ItemC]
      [c5ItemC, c5ItemA, c5ItemB] (by decide)
  · decide

end Deye
